import Mathlib

/-!
# Shallow embedding of the payout reconciliation core (`src/recon.py`)

The repository reconciles backend payout records against counterparty
(wallet / Rise) settlement reports.  This file embeds the core module
`recon.py` over plain Lean data:

* a pandas `DataFrame` is modelled as a `List` of records plus, where the
  claims are about column lookup, a `List String` of column names;
* timestamps are rational numbers of minutes in the report timezone
  (the code normalises every timestamp to the report timezone before any
  comparison; `NaT` is modelled as `none`);
* floating point amounts are rationals, with `NaN` modelled as `none`
  (pandas propagates `NaN` through arithmetic and skips it in sums, which
  the `Option` model mirrors explicitly);
* a raised Python exception is modelled as `Except.error`.

Python string formatting details (such as quoting inside `repr` of a list)
are simplified to plain interpolation; the information content of each
error message (which names were tried, which columns are available) is
kept.
-/

namespace Recon

/-- Model of the regex replace in `_norm_col`: collapse every maximal run of
whitespace to a single space (`re.sub(r"\s+", " ", s)`). -/
def squashWs : List Char → List Char
  | [] => []
  | c :: cs =>
    if c.isWhitespace then ' ' :: squashWs (cs.dropWhile Char.isWhitespace)
    else c :: squashWs cs
termination_by l => l.length
decreasing_by
  · exact Nat.lt_succ_of_le (List.dropWhile_suffix _).sublist.length_le
  · simp

/-- `_norm_col` from `recon.py`: `re.sub(r"\s+", " ", str(name).strip().lower())`. -/
def norm_col (s : String) : String := String.mk (squashWs s.trim.toLower.data)

/-- `_clean_id` from `recon.py`: `s.astype(str).str.strip().str.upper()`. -/
def clean_id (s : String) : String := s.trim.toUpper

/-- Candidate list of `_resolve_col`: the requested name (when non-empty,
Python truthiness of a string) followed by the fallbacks. -/
def colCandidates (requested : String) (fallbacks : List String) : List String :=
  (if requested = "" then [] else [requested]) ++ fallbacks

/-- Model of the dict comprehension `{_norm_col(c): c for c in cols}`:
a later column overwrites an earlier one with the same normalised name,
so lookup returns the last matching column. -/
def normLookup (cols : List String) (key : String) : Option String :=
  (cols.filter (fun c => norm_col c == key)).getLast?

/-- The `KeyError` message of `_resolve_col`, naming the tried candidate
names and the available columns. -/
def colErrMsg (tried cols : List String) : String :=
  s!"Column not found. Tried: {tried}. Available: {cols}"

/-- `_resolve_col` from `recon.py`: return the actual column matching the
requested name case/whitespace-insensitively, else try the fallbacks,
else fail with a message naming the tried candidates and the available
columns. -/
def resolve_col (cols : List String) (requested : String) (fallbacks : List String) :
    Except String String :=
  let tried := colCandidates requested fallbacks
  match tried.findSome? (fun cand => normLookup cols (norm_col cand)) with
  | some c => .ok c
  | none => .error (colErrMsg tried cols)

/-- Model of a direct pandas column access `df[name]`: succeeds only on an
exact name match, otherwise raises a bare `KeyError` naming just the
missing column. -/
def getColDirect (cols : List String) (name : String) : Except String String :=
  if cols.contains name then .ok name else .error (s!"KeyError: {name}")

/-- Fallbacks for the backend id column (`reconcile_exact` line 128,
`reconcile_rise_substring` line 188). -/
def backendIdFallbacks : List String :=
  ["Transaction ID", "Tracking ID", "TrackingID", "tracking id", "tracking_id",
   "Txn ID", "TXN ID", "Reference", "Reference ID"]

/-- Fallbacks for the wallet id column (`reconcile_exact` line 130). -/
def walletIdFallbacks : List String :=
  ["Tracking ID", "TrackingID", "tracking id", "tracking_id",
   "Txn ID", "TXN ID", "Reference", "Reference ID"]

/-- Fallbacks for the backend timestamp column (lines 133, 192, 274). -/
def backendTsFallbacks : List String :=
  ["Created", "Created At", "CreatedAt", "created", "created at"]

/-- Fallbacks for the backend amount column (lines 140, 200, 282). -/
def backendAmountFallbacks : List String :=
  ["Disbursement Amount", "Disbursement amount", "Amount", "amount"]

/-- Fallbacks for the Rise timestamp column (lines 194, 276). -/
def riseTsFallbacks : List String :=
  ["Date", "Timestamp", "Created", "created", "date"]

/-- Fallbacks for the Rise amount column (lines 202, 284). -/
def riseAmountFallbacks : List String :=
  ["Amount", "amount", "Net Amount", "net amount"]

/-- Column-access phase of `reconcile_exact` (lines 128-142), in source
order.  The backend id, wallet id, backend timestamp and backend amount
columns go through `_resolve_col`; the wallet timestamp column (line 135)
and the wallet amount column (line 142) are accessed directly by name. -/
def exactResolveCols (bcols wcols : List String)
    (bid bts bamt wid wts wamt : String) : Except String Unit := do
  let _ ← resolve_col bcols bid backendIdFallbacks
  let _ ← resolve_col wcols wid walletIdFallbacks
  let _ ← resolve_col bcols bts backendTsFallbacks
  let _ ← getColDirect wcols wts
  let _ ← resolve_col bcols bamt backendAmountFallbacks
  let _ ← getColDirect wcols wamt
  pure ()

/-- Column-access phase of `reconcile_rise_substring` (lines 188-202), in
source order.  The Rise description column (line 190) is accessed directly
by name; the rest go through `_resolve_col`. -/
def subResolveCols (bcols rcols : List String)
    (bid bts bamt rdesc rts ramt : String) : Except String Unit := do
  let _ ← resolve_col bcols bid backendIdFallbacks
  let _ ← getColDirect rcols rdesc
  let _ ← resolve_col bcols bts backendTsFallbacks
  let _ ← resolve_col rcols rts riseTsFallbacks
  let _ ← resolve_col bcols bamt backendAmountFallbacks
  let _ ← resolve_col rcols ramt riseAmountFallbacks
  pure ()

/-- Column-access phase of `reconcile_rise_email` (lines 271-284), in
source order.  The backend email column (line 271) and the Rise
description column (line 272) are accessed directly by name; the rest go
through `_resolve_col`. -/
def emailResolveCols (bcols rcols : List String)
    (bemail bts bamt rdesc rts ramt : String) : Except String Unit := do
  let _ ← getColDirect bcols bemail
  let _ ← getColDirect rcols rdesc
  let _ ← resolve_col bcols bts backendTsFallbacks
  let _ ← resolve_col rcols rts riseTsFallbacks
  let _ ← resolve_col bcols bamt backendAmountFallbacks
  let _ ← resolve_col rcols ramt riseAmountFallbacks
  pure ()

/-! ## Data model

One backend disbursement record after normalisation: `rid` is the raw
identifier column value, `email` the raw payment-method email column value
(used only by the email strategy), `ts_report` the timestamp already
normalised to the report timezone (`_to_utc` followed by `tz_convert`,
minutes as a rational; `none` models `NaT`), `amount` the numerically
coerced amount (`none` models `NaN`). -/
structure BackendRow where
  rid : String
  email : String
  ts_report : Option ℚ
  amount : Option ℚ
deriving Repr, DecidableEq

/-- One wallet (crypto counterparty) record for the exact strategy:
raw identifier, normalised timestamp, raw coerced amount (before the
absolute value of line 142). -/
structure WalletRow where
  rid : String
  ts_report : Option ℚ
  amount : Option ℚ
deriving Repr, DecidableEq

/-- One Rise (payroll counterparty) record: free-text description,
normalised timestamp, raw coerced amount (before the absolute value of
lines 203 / 285). -/
structure RiseRow where
  desc : String
  ts_report : Option ℚ
  amount : Option ℚ
deriving Repr, DecidableEq

/-- One row of the merged/classified tables.  Under the email strategy the
`txn_id` field holds the `match_key` (normalised email) instead of the
cleaned transaction id; the remaining columns are identical across the
three strategies. -/
structure OutRow where
  txn_id : String
  ts_report_backend : Option ℚ
  ts_report_wallet : Option ℚ
  amount_backend : Option ℚ
  amount_wallet : Option ℚ
  delay_min : Option ℚ
  amount_diff : Option ℚ
  bucket_3h : Option ℚ
deriving Repr, DecidableEq

/-- Subtraction with pandas `NaN`/`NaT` propagation: the difference is
missing whenever either operand is. -/
def osub : Option ℚ → Option ℚ → Option ℚ
  | some a, some b => some (a - b)
  | _, _ => none

/-- Pandas comparison `series >= lo and series < hi` used for the window
filters: a missing timestamp compares `False`. -/
def inWindow (lo hi : ℚ) : Option ℚ → Bool
  | some t => decide (lo ≤ t) && decide (t < hi)
  | none => false

/-- `merged["delay_min"].abs() <= tolerance`: `False` on a missing delay
(pandas `NaN` comparisons are `False`). -/
def absLeTol (tol : ℚ) : Option ℚ → Bool
  | some d => decide (|d| ≤ tol)
  | none => false

/-- `merged["delay_min"].abs() > tolerance`: `False` on a missing delay. -/
def absGtTol (tol : ℚ) : Option ℚ → Bool
  | some d => decide (tol < |d|)
  | none => false

/-- The windowed backend frame `b_win` (lines 144, 205, 287):
records whose report-timezone timestamp lies in `[report_start, report_end)`. -/
def backendWindow (rstart rend : ℚ) (backend : List BackendRow) : List BackendRow :=
  backend.filter (fun b => inWindow rstart rend b.ts_report)

/-- Build one merged row from a backend record and the chosen (or absent)
counterparty timestamp and already-absolute-valued amount, computing
`delay_min` (line 152) and `amount_diff` (line 153); the bucket column is
attached later, as in the source (line 160). -/
def mkOut (key : String) (b : BackendRow) (wts wamt : Option ℚ) : OutRow :=
  { txn_id := key
    ts_report_backend := b.ts_report
    ts_report_wallet := wts
    amount_backend := b.amount
    amount_wallet := wamt
    delay_min := osub b.ts_report wts
    amount_diff := osub b.amount wamt
    bucket_3h := none }

/-- The wallet rows joining a given backend record under the exact
strategy: identical cleaned (trimmed-uppercase) identifier. -/
def exactMatchesFor (wallet : List WalletRow) (b : BackendRow) : List WalletRow :=
  wallet.filter (fun w => clean_id w.rid == clean_id b.rid)

/-- One backend record's rows in the left merge of line 146: pandas
`merge(..., how="left")` emits one row per matching right-hand row (in
right-hand input order), or a single row with missing wallet fields when
no right-hand row matches.  The wallet amount is the absolute value taken
on line 142. -/
def exactMergeOne (wallet : List WalletRow) (b : BackendRow) : List OutRow :=
  match exactMatchesFor wallet b with
  | [] => [mkOut (clean_id b.rid) b none none]
  | ms => ms.map (fun w => mkOut (clean_id b.rid) b w.ts_report (w.amount.map (|·|)))

/-- The filter of line 155: a counterparty was found and the absolute
delay is within tolerance. -/
def matchedFilter (tol : ℚ) (rows : List OutRow) : List OutRow :=
  rows.filter (fun r => r.ts_report_wallet.isSome && absLeTol tol r.delay_min)

/-- The filter of line 156: a counterparty was found and the absolute
delay exceeds tolerance. -/
def lateFilter (tol : ℚ) (rows : List OutRow) : List OutRow :=
  rows.filter (fun r => r.ts_report_wallet.isSome && absGtTol tol r.delay_min)

/-- The filter of line 157: no counterparty timestamp. -/
def missingFilter (rows : List OutRow) : List OutRow :=
  rows.filter (fun r => r.ts_report_wallet.isNone)

/-- `bucket_3h` (line 60): `ts.dt.floor("3H")` floors the report-timezone
timestamp to the 3-hour (180-minute) grid anchored at the epoch/midnight,
not at the reporting interval start. -/
def bucket_3h (t : ℚ) : ℚ := 180 * (⌊t / 180⌋ : ℤ)

/-- Attach the bucket column (lines 159-160): the floor of the backend
report timestamp. -/
def setBucket (r : OutRow) : OutRow :=
  { r with bucket_3h := r.ts_report_backend.map bucket_3h }

/-! ## Bucketed summary (`_build_summary`, lines 77-107) -/

/-- One row of the 3-hour summary table, with the column order of the
final frame of `_build_summary`. -/
structure SummaryRow where
  bucket_3h : ℚ
  matched_count : ℕ
  backend_total : ℚ
  wallet_total : ℚ
  diff_total : ℚ
  abs_diff_total : ℚ
  missing_count : ℕ
  late_sync_count : ℕ
deriving Repr, DecidableEq

/-- Pandas `sum` aggregation over a column that may hold `NaN`: missing
values are skipped (contribute zero), and an empty group sums to `0.0`. -/
def optSum (l : List (Option ℚ)) : ℚ := (l.map (fun x => x.getD 0)).sum

/-- The synthesized window sequence of line 98:
`pd.date_range(report_start, report_end, freq="3H", inclusive="left")`
produces `report_start + 180*k` for every `k` with
`report_start + 180*k < report_end`, i.e. `⌈(report_end - report_start)/180⌉`
points anchored at the interval start. -/
def bucketStarts (rstart rend : ℚ) : List ℚ :=
  (List.range (Int.toNat ⌈(rend - rstart) / 180⌉)).map (fun k : ℕ => rstart + 180 * (k : ℚ))

/-- `_build_summary` collapsed to its final value: the groupby aggregates
of lines 81-94 are outer-merged and then left-joined onto the synthesized
window sequence (line 100) with `fillna` (lines 102-105).  The resulting
table has exactly one row per synthesized window, carrying the counts and
the `NaN`-skipping sums of the classified rows whose bucket equals that
window (so aggregates at buckets outside the synthesized sequence are
dropped by the left join). -/
def build_summary (matched late missing : List OutRow) (rstart rend : ℚ) :
    List SummaryRow :=
  (bucketStarts rstart rend).map (fun beta =>
    let mrows := matched.filter (fun r => r.bucket_3h == some beta)
    { bucket_3h := beta
      matched_count := mrows.length
      backend_total := optSum (mrows.map (·.amount_backend))
      wallet_total := optSum (mrows.map (·.amount_wallet))
      diff_total := optSum (mrows.map (·.amount_diff))
      abs_diff_total := optSum (mrows.map (fun r => r.amount_diff.map (|·|)))
      missing_count := (missing.filter (fun r => r.bucket_3h == some beta)).length
      late_sync_count := (late.filter (fun r => r.bucket_3h == some beta)).length })

/-- The result record returned by every strategy (class `ReconResult`). -/
structure ReconResult where
  matched : List OutRow
  late_sync : List OutRow
  missing_true : List OutRow
  summary_3h : List SummaryRow
deriving Repr, DecidableEq

/-- Shared classification-and-summary tail of the three strategies
(lines 155-162 / 232-239 / 316-323): split the merged rows into
matched / late-sync / missing-true, attach buckets, build the summary. -/
def classifyAndSummarize (merged : List OutRow) (rstart rend tol : ℚ) : ReconResult :=
  let matched := (matchedFilter tol merged).map setBucket
  let late := (lateFilter tol merged).map setBucket
  let missing := (missingFilter merged).map setBucket
  { matched := matched
    late_sync := late
    missing_true := missing
    summary_3h := build_summary matched late missing rstart rend }

/-- Row-level semantics of `reconcile_exact` (lines 125-163), after the
column-resolution phase: window the backend frame, left-merge the wallet
frame on the cleaned transaction id, classify by delay against the
tolerance, bucket and summarise. -/
def reconExactRows (backend : List BackendRow) (wallet : List WalletRow)
    (rstart rend tol : ℚ) : ReconResult :=
  let merged := (backendWindow rstart rend backend).flatMap (exactMergeOne wallet)
  classifyAndSummarize merged rstart rend tol

/-- `reconcile_exact` (lines 109-163): the column-resolution phase models
the column accesses of lines 128-142 on the two frames' column-name lists;
on success the row-level pipeline runs (the record lists model the
projected, already-normalised columns). -/
def reconcile_exact (bcols wcols : List String)
    (bid bts bamt wid wts wamt : String)
    (backend : List BackendRow) (wallet : List WalletRow)
    (rstart rend tol : ℚ) : Except String ReconResult := do
  let _ ← exactResolveCols bcols wcols bid bts bamt wid wts wamt
  pure (reconExactRows backend wallet rstart rend tol)

/-! ## Regex containment (`r_win["_desc"].str.contains(txn_id, na=False)`)

Pandas `str.contains` treats the pattern as a regular expression by
default (`regex=True`), compiling it with `re.compile` and testing
`re.search`.  The model below implements Python `re` semantics for the
pattern fragment relevant to transaction identifiers: literal characters,
the wildcard `.` (any character except a newline) and the postfix
quantifiers `*`, `+`, `?` applied to a single preceding atom.  A leading
quantifier is a compile error in Python (`nothing to repeat`), a doubled
quantifier is a compile error (`multiple repeat`; Python lazy-quantifier
suffixes are outside the modelled fragment and also reported as errors),
and the remaining metacharacters — grouping, classes, escapes,
alternation, anchors, counted repetition — are outside the modelled
fragment and reported as errors; of these, a lone `(`, `)` or `[` is a
genuine `re.error` in Python (unbalanced parenthesis / unterminated
character set). -/

/-- A regex atom of the modelled fragment. -/
inductive RAtom where
  | lit (c : Char)
  | dot
deriving Repr, DecidableEq

/-- An atom together with its quantifier. -/
inductive RPiece where
  | once (a : RAtom)
  | star (a : RAtom)
  | plus (a : RAtom)
  | opt (a : RAtom)
deriving Repr, DecidableEq

/-- Characters the model does not treat as literals or quantifiers. -/
def regexUnsupported (c : Char) : Bool :=
  c == '(' || c == ')' || c == '[' || c == ']' || c == '\\' ||
  c == '{' || c == '}' || c == '|' || c == '^' || c == '$'

/-- Parse a pattern of the modelled fragment (accumulator reversed). -/
def parseRegex : List Char → List RPiece → Except String (List RPiece)
  | [], acc => .ok acc.reverse
  | c :: cs, acc =>
    if regexUnsupported c then
      .error "re.error: unbalanced or unsupported metacharacter"
    else if c == '*' || c == '+' || c == '?' then
      match acc with
      | .once a :: rest =>
        let piece := if c == '*' then RPiece.star a
          else if c == '+' then RPiece.plus a else RPiece.opt a
        parseRegex cs (piece :: rest)
      | _ :: _ => .error "re.error: multiple repeat"
      | [] => .error "re.error: nothing to repeat"
    else if c == '.' then
      parseRegex cs (.once .dot :: acc)
    else
      parseRegex cs (.once (.lit c) :: acc)

/-- Atom matching: `.` matches any character except a newline. -/
def matchAtom : RAtom → Char → Bool
  | .lit c, d => c == d
  | .dot, d => d != '\n'

/-- Backtracking matcher: does the piece list match some prefix of the
text?  Greediness is irrelevant to the boolean outcome. -/
def matchPieces : List RPiece → List Char → Bool
  | [], _ => true
  | .once _ :: _, [] => false
  | .once a :: ps, c :: cs => matchAtom a c && matchPieces ps cs
  | .opt _ :: ps, [] => matchPieces ps []
  | .opt a :: ps, c :: cs =>
    (matchAtom a c && matchPieces ps cs) || matchPieces ps (c :: cs)
  | .plus _ :: _, [] => false
  | .plus a :: ps, c :: cs => matchAtom a c && matchPieces (.star a :: ps) cs
  | .star _ :: ps, [] => matchPieces ps []
  | .star a :: ps, c :: cs =>
    (matchAtom a c && matchPieces (.star a :: ps) cs) || matchPieces ps (c :: cs)
termination_by ps cs => (cs.length, ps.length)

/-- `re.search`: the pieces match starting at some position of the text. -/
def rsearch (ps : List RPiece) : List Char → Bool
  | [] => matchPieces ps []
  | c :: cs => matchPieces ps (c :: cs) || rsearch ps cs

/-- `desc.str.contains(pat, na=False)` on one cell: compile the pattern,
then search the text. -/
def strContainsRegex (pat text : String) : Except String Bool :=
  (parseRegex pat.data []).map (fun ps => rsearch ps text.data)

/-- Total variant used inside the pure pipeline; it agrees with
`strContainsRegex` whenever the pattern compiles, and the pipeline is
only consulted when every windowed pattern compiles. -/
def strContainsRegexD (pat text : String) : Bool :=
  match strContainsRegex pat text with
  | .ok b => b
  | .error _ => false

/-- Reference definition, from the spec's words, for comparison: the
pattern occurs in the text as a literal substring. -/
def literalContains (pat text : String) : Bool :=
  go pat.data text.data
where
  go (p : List Char) : List Char → Bool
    | [] => p.isEmpty
    | c :: cs => p.isPrefixOf (c :: cs) || go p cs

/-! ## Substring strategy (`reconcile_rise_substring`, lines 165-240) -/

/-- The margin-filtered Rise frame `r_win` (lines 206, 288): records whose
report-timezone timestamp lies in
`[report_start - 6h, report_end + 6h)`; rows with a missing timestamp are
excluded (pandas `NaT` comparisons are `False`). -/
def riseWindow (rstart rend : ℚ) (rise : List RiseRow) : List RiseRow :=
  rise.filter (fun r => inWindow (rstart - 360) (rend + 360) r.ts_report)

/-- The absolute time distance of a candidate to the backend timestamp
(`(m["ts_report_wallet"] - backend_ts).abs()`).  Candidates always carry a
timestamp (the margin window filter discards `NaT` rows); the default `0`
is never reached on windowed rows. -/
def absDelta (bts : ℚ) (r : RiseRow) : ℚ := |r.ts_report.getD 0 - bts|

/-- `deltas.idxmin()` followed by `.loc`: the first row (in candidate
order, i.e. original input order of the filtered frame) attaining the
minimum absolute time distance. -/
def argminFirst (f : RiseRow → ℚ) : List RiseRow → Option RiseRow
  | [] => none
  | r :: rs =>
    match argminFirst f rs with
    | none => some r
    | some best => if f r ≤ f best then some r else some best

/-- `_pick_best` of the substring strategy (lines 208-215), given the
already-compiled containment test on the uppercased description: the
candidates are the margin-windowed rows whose description matches, and
the nearest-timestamp first-tie candidate provides the wallet timestamp
and the absolute-valued amount (line 203). -/
def pickBestSub (rwin : List RiseRow) (txnId : String) (bts : Option ℚ) :
    Option ℚ × Option ℚ :=
  let m := rwin.filter (fun r => strContainsRegexD txnId r.desc.toUpper)
  match m, bts with
  | [], _ => (none, none)
  | _ :: _, none => (none, none)
  | _ :: _, some t =>
    match argminFirst (absDelta t) m with
    | some r => (r.ts_report, r.amount.map (|·|))
    | none => (none, none)

/-- One merged row of the substring strategy for a windowed backend
record (lines 217-230). -/
def subMergeOne (rwin : List RiseRow) (b : BackendRow) : OutRow :=
  let key := clean_id b.rid
  let p := pickBestSub rwin key b.ts_report
  mkOut key b p.1 p.2

/-- The first `re.compile` failure over the windowed backend identifiers,
in backend order: `_pick_best` is invoked once per windowed backend row
(line 209 compiles the identifier as a pattern even when the candidate
frame is empty), and the run aborts at the first invalid pattern. -/
def firstParseErr : List BackendRow → Option String
  | [] => none
  | b :: bs =>
    match parseRegex (clean_id b.rid).data [] with
    | .error e => some e
    | .ok _ => firstParseErr bs

/-- Row-level semantics of `reconcile_rise_substring` after the
column-resolution phase.  When every windowed identifier compiles, the
pure pipeline (in which `strContainsRegexD` agrees with Python) runs;
otherwise the first compile error propagates. -/
def reconSubRows (backend : List BackendRow) (rise : List RiseRow)
    (rstart rend tol : ℚ) : Except String ReconResult :=
  let bwin := backendWindow rstart rend backend
  match firstParseErr bwin with
  | some e => .error e
  | none =>
    let rwin := riseWindow rstart rend rise
    .ok (classifyAndSummarize (bwin.map (subMergeOne rwin)) rstart rend tol)

/-- `reconcile_rise_substring` (lines 165-240): column-resolution phase,
then the row-level pipeline. -/
def reconcile_rise_substring (bcols rcols : List String)
    (bid bts bamt rdesc rts ramt : String)
    (backend : List BackendRow) (rise : List RiseRow)
    (rstart rend tol : ℚ) : Except String ReconResult := do
  let _ ← subResolveCols bcols rcols bid bts bamt rdesc rts ramt
  reconSubRows backend rise rstart rend tol

/-! ## Email extraction (`_extract_email`, lines 244-246)

`s.str.extract(r'([A-Z0-9._%+-]+@[A-Z0-9.-]+\.[A-Z]{2,})', re.IGNORECASE)`
followed by `.str.lower()`: the first (leftmost) match of the email
pattern, lower-cased, or missing when there is none.  Python `re`
backtracking on this pattern reduces to: a maximal run of local-part
characters (the following literal `@` is not a local-part character, so
the greedy `+` never backtracks), then `@`, then the longest split of the
maximal run of domain characters into a non-empty prefix, a literal dot
and at least two letters (the greedy domain `+` backtracks from the
longest prefix down, and both the dot and the letters lie inside the
domain-character run). -/

/-- `[A-Za-z0-9._%+-]` (the class under `re.IGNORECASE`). -/
def isLocalChar (c : Char) : Bool :=
  c.isAlphanum || c == '.' || c == '_' || c == '%' || c == '+' || c == '-'

/-- `[A-Za-z0-9.-]`. -/
def isDomChar (c : Char) : Bool := c.isAlphanum || c == '.' || c == '-'

/-- Is index `m` of the domain-character run a valid split point: a dot
followed by at least two letters? -/
def emailSplitOk (dom : List Char) (m : ℕ) : Bool :=
  decide (1 ≤ m) && (dom.drop m).head? == some '.' &&
    decide (2 ≤ ((dom.drop (m + 1)).takeWhile Char.isAlpha).length)

/-- The split chosen by the greedy domain `+`: the largest valid split
point. -/
def emailFindSplit (dom : List Char) : Option ℕ :=
  (List.range dom.length).reverse.find? (emailSplitOk dom)

/-- Try to match the email pattern at the start of `cs`, returning the
matched group. -/
def emailAt (cs : List Char) : Option (List Char) :=
  let loc := cs.takeWhile isLocalChar
  if loc.isEmpty then none
  else
    match cs.drop loc.length with
    | '@' :: rest =>
      let dom := rest.takeWhile isDomChar
      match emailFindSplit dom with
      | some m =>
        some (loc ++ '@' :: dom.take m ++ '.' :: (dom.drop (m + 1)).takeWhile Char.isAlpha)
      | none => none
    | _ => none

/-- `re.search` position scan: the leftmost start position with a match
wins. -/
def extractEmailList : List Char → Option (List Char)
  | [] => none
  | c :: cs =>
    match emailAt (c :: cs) with
    | some g => some g
    | none => extractEmailList cs

/-- `_extract_email` on one cell, including the final `.str.lower()`. -/
def extract_email (s : String) : Option String :=
  (extractEmailList s.data).map (fun g => (String.mk g).toLower)

/-! ## Email strategy (`reconcile_rise_email`, lines 248-324) -/

/-- The backend match key (line 271):
`astype(str).str.strip().str.lower()` of the email column. -/
def emailKey (b : BackendRow) : String := b.email.trim.toLower

/-- `_pick_best` of the email strategy (lines 292-299): the group of the
backend key in the grouped margin-windowed Rise frame (line 290; grouping
preserves input order inside a group and drops rows without an extracted
email), and the nearest-timestamp first-tie candidate provides the wallet
timestamp and the absolute-valued amount (line 285). -/
def pickBestEmail (rwin : List RiseRow) (key : String) (bts : Option ℚ) :
    Option ℚ × Option ℚ :=
  let g := rwin.filter (fun r => extract_email r.desc == some key)
  match g, bts with
  | [], _ => (none, none)
  | _ :: _, none => (none, none)
  | _ :: _, some t =>
    match argminFirst (absDelta t) g with
    | some r => (r.ts_report, r.amount.map (|·|))
    | none => (none, none)

/-- One merged row of the email strategy for a windowed backend record
(lines 301-314); the key column is the normalised email. -/
def emailMergeOne (rwin : List RiseRow) (b : BackendRow) : OutRow :=
  let key := emailKey b
  let p := pickBestEmail rwin key b.ts_report
  mkOut key b p.1 p.2

/-- Row-level semantics of `reconcile_rise_email` after the
column-resolution phase (the email pattern is fixed, so no user-supplied
pattern can fail to compile). -/
def reconEmailRows (backend : List BackendRow) (rise : List RiseRow)
    (rstart rend tol : ℚ) : ReconResult :=
  let bwin := backendWindow rstart rend backend
  let rwin := riseWindow rstart rend rise
  classifyAndSummarize (bwin.map (emailMergeOne rwin)) rstart rend tol

/-- `reconcile_rise_email` (lines 248-324): column-resolution phase, then
the row-level pipeline. -/
def reconcile_rise_email (bcols rcols : List String)
    (bemail bts bamt rdesc rts ramt : String)
    (backend : List BackendRow) (rise : List RiseRow)
    (rstart rend tol : ℚ) : Except String ReconResult := do
  let _ ← emailResolveCols bcols rcols bemail bts bamt rdesc rts ramt
  pure (reconEmailRows backend rise rstart rend tol)

/-! ## Auxiliary definitions for the statements -/

/-- The zero-activity summary row of a bucket (all counts `0`, all sums
`0.0`). -/
def zeroSummaryRow (beta : ℚ) : SummaryRow :=
  { bucket_3h := beta
    matched_count := 0
    backend_total := 0
    wallet_total := 0
    diff_total := 0
    abs_diff_total := 0
    missing_count := 0
    late_sync_count := 0 }

/-- All rows of the three terminal tables of a result. -/
def allRows (res : ReconResult) : List OutRow :=
  res.matched ++ res.late_sync ++ res.missing_true

/-! Concrete fixtures used by counterexamples and witnesses. -/

/-- A backend record with key `k`, timestamp `0`, amount `100`. -/
def cexB : BackendRow := { rid := "k", email := "", ts_report := some 0, amount := some 100 }

/-- A wallet record whose identifier also cleans to `K`, timestamp `0`. -/
def cexW1 : WalletRow := { rid := " k ", ts_report := some 0, amount := some (-100) }

/-- A second wallet record with the same cleaned key `K`, timestamp `100`. -/
def cexW2 : WalletRow := { rid := "K", ts_report := some 100, amount := some 2 }

/-- A backend record whose identifier cleans to the pattern `A.C`. -/
def cexB3 : BackendRow := { rid := " a.c ", email := "", ts_report := some 0, amount := some 1 }

/-- A backend record whose identifier cleans to the invalid pattern `ABC(`. -/
def cexB3bad : BackendRow :=
  { rid := "ABC(", email := "", ts_report := some 0, amount := some 1 }

/-- A Rise record whose description uppercases to `AXC`: it does not
contain `A.C` as a literal substring. -/
def cexR3 : RiseRow := { desc := "axc", ts_report := some 0, amount := some 1 }

/-- A backend record at minute `90` (inside the window `[60, 240)`). -/
def cexB5 : BackendRow := { rid := "K", email := "", ts_report := some 90, amount := some 7 }

/-- A wallet record matching `cexB5` at the same minute. -/
def cexW5 : WalletRow := { rid := "K", ts_report := some 90, amount := some 7 }

/-- A windowed backend record used for the empty-counterparty case. -/
def cexB9 : BackendRow := { rid := "B9", email := "b9@x.co", ts_report := some 10, amount := some 5 }

/-- A backend record whose identifier cleans to the invalid pattern `B9(`. -/
def cexB9bad : BackendRow :=
  { rid := "B9(", email := "", ts_report := some 10, amount := some 5 }

/-- A backend record with amount `100`. -/
def cexB10 : BackendRow := { rid := "T", email := "", ts_report := some 0, amount := some 100 }

/-- A wallet record listing the disbursement as `-100`. -/
def cexW10 : WalletRow := { rid := "T", ts_report := some 0, amount := some (-100) }

/-- The matched output row produced by `cexB10`/`cexW10`: the counterparty
amount `-100` is normalized to `100` and the amount difference is `0`. -/
def cexRow10 : OutRow :=
  { txn_id := "T"
    ts_report_backend := some 0
    ts_report_wallet := some 0
    amount_backend := some 100
    amount_wallet := some 100
    delay_min := some 0
    amount_diff := some 0
    bucket_3h := some 0 }

/-- A merged row whose absolute delay is exactly the default tolerance. -/
def cexRowTol : OutRow :=
  { txn_id := "A"
    ts_report_backend := some 20
    ts_report_wallet := some 5
    amount_backend := some 1
    amount_wallet := some 1
    delay_min := some 15
    amount_diff := some 0
    bucket_3h := none }

/-- A merged row whose absolute delay is the tolerance plus `0.0001`
minutes. -/
def cexRowTolPlus : OutRow :=
  { txn_id := "B"
    ts_report_backend := some 20
    ts_report_wallet := some (5 - 1 / 10000)
    amount_backend := some 1
    amount_wallet := some 1
    delay_min := some (15 + 1 / 10000)
    amount_diff := some 0
    bucket_3h := none }

/-- A merged row with no counterparty found. -/
def cexRowMissing : OutRow :=
  { txn_id := "C"
    ts_report_backend := some 20
    ts_report_wallet := none
    amount_backend := some 1
    amount_wallet := none
    delay_min := none
    amount_diff := none
    bucket_3h := none }

/-- Two Rise records tied at distance `10` from a backend timestamp `0`,
and one farther away, all with descriptions containing `K`. -/
def cexR7a : RiseRow := { desc := "pay K first", ts_report := some 10, amount := some 3 }

def cexR7b : RiseRow := { desc := "pay K second", ts_report := some (-10), amount := some 4 }

def cexR7c : RiseRow := { desc := "pay K far", ts_report := some 50, amount := some 5 }

/-- A Rise record containing the identifier but lying outside the 6-hour
margin of the window `[0, 180)`. -/
def cexR7out : RiseRow := { desc := "pay K outside", ts_report := some 600, amount := some 6 }

/-- Two Rise records with the same extracted email, tied at distance `10`
from backend timestamp `0`. -/
def cexR7ea : RiseRow := { desc := "x a@b.co y", ts_report := some 10, amount := some 3 }

def cexR7eb : RiseRow := { desc := "z A@B.CO w", ts_report := some (-10), amount := some 4 }

/-! ## Helper lemmas -/

theorem inWindow_none (lo hi : ℚ) : inWindow lo hi none = false := rfl

theorem inWindow_some_iff {lo hi t : ℚ} :
    inWindow lo hi (some t) = true ↔ lo ≤ t ∧ t < hi := by
  simp [inWindow]

theorem inWindow_isSome {lo hi : ℚ} {t : Option ℚ} (h : inWindow lo hi t = true) :
    t.isSome := by
  cases t with
  | none => simp [inWindow] at h
  | some v => rfl

theorem mem_backendWindow {rstart rend : ℚ} {backend : List BackendRow} {b : BackendRow} :
    b ∈ backendWindow rstart rend backend ↔
      b ∈ backend ∧ inWindow rstart rend b.ts_report = true := by
  simp [backendWindow, List.mem_filter]

theorem setBucket_txn_id (r : OutRow) : (setBucket r).txn_id = r.txn_id := rfl

theorem setBucket_ts_backend (r : OutRow) :
    (setBucket r).ts_report_backend = r.ts_report_backend := rfl

theorem setBucket_ts_wallet (r : OutRow) :
    (setBucket r).ts_report_wallet = r.ts_report_wallet := rfl

theorem setBucket_amounts (r : OutRow) :
    (setBucket r).amount_backend = r.amount_backend ∧
    (setBucket r).amount_wallet = r.amount_wallet ∧
    (setBucket r).amount_diff = r.amount_diff := ⟨rfl, rfl, rfl⟩

theorem setBucket_delay (r : OutRow) : (setBucket r).delay_min = r.delay_min := rfl

theorem mem_classify_matched {merged : List OutRow} {rstart rend tol : ℚ} {r : OutRow} :
    r ∈ (classifyAndSummarize merged rstart rend tol).matched ↔
      ∃ r0, (r0 ∈ merged ∧
        (r0.ts_report_wallet.isSome && absLeTol tol r0.delay_min) = true) ∧
        setBucket r0 = r := by
  simp [classifyAndSummarize, matchedFilter, List.mem_filter]

theorem mem_classify_late {merged : List OutRow} {rstart rend tol : ℚ} {r : OutRow} :
    r ∈ (classifyAndSummarize merged rstart rend tol).late_sync ↔
      ∃ r0, (r0 ∈ merged ∧
        (r0.ts_report_wallet.isSome && absGtTol tol r0.delay_min) = true) ∧
        setBucket r0 = r := by
  simp [classifyAndSummarize, lateFilter, List.mem_filter]

theorem mem_classify_missing {merged : List OutRow} {rstart rend tol : ℚ} {r : OutRow} :
    r ∈ (classifyAndSummarize merged rstart rend tol).missing_true ↔
      ∃ r0, (r0 ∈ merged ∧ r0.ts_report_wallet.isNone) ∧ setBucket r0 = r := by
  simp [classifyAndSummarize, missingFilter, List.mem_filter]

theorem partition_length (tol : ℚ) (l : List OutRow)
    (h : ∀ r ∈ l, r.ts_report_wallet.isSome → r.delay_min.isSome) :
    (matchedFilter tol l).length + (lateFilter tol l).length + (missingFilter l).length
      = l.length := by
  induction l with
  | nil => rfl
  | cons a l ih =>
    have ha := h a (List.mem_cons_self a l)
    have ih2 := ih (fun r hr => h r (List.mem_cons_of_mem _ hr))
    simp only [matchedFilter, lateFilter, missingFilter, List.filter_cons] at ih2 ⊢
    cases hw : a.ts_report_wallet with
    | none =>
      simp [hw, ih2]
      omega
    | some u =>
      have hd : a.delay_min.isSome := by
        apply ha; rw [hw]; rfl
      rcases Option.isSome_iff_exists.mp hd with ⟨d, hdd⟩
      rcases le_or_lt |d| tol with hle | hgt
      · have e1 : absLeTol tol a.delay_min = true := by simp [hdd, absLeTol, hle]
        have e2 : absGtTol tol a.delay_min = false := by
          simp only [hdd, absGtTol, decide_eq_false_iff_not, not_lt]
          exact hle
        simp [hw, e1, e2, ih2]
        omega
      · have e1 : absLeTol tol a.delay_min = false := by
          simp only [hdd, absLeTol, decide_eq_false_iff_not, not_le]
          exact hgt
        have e2 : absGtTol tol a.delay_min = true := by simp [hdd, absGtTol, hgt]
        simp [hw, e1, e2, ih2]
        omega

theorem mkOut_wallet_delay {key : String} {b : BackendRow} {wts wamt : Option ℚ}
    (hb : b.ts_report.isSome) :
    (mkOut key b wts wamt).ts_report_wallet.isSome →
      (mkOut key b wts wamt).delay_min.isSome := by
  rcases Option.isSome_iff_exists.mp hb with ⟨t, ht⟩
  cases wts with
  | none => intro hc; simp [mkOut] at hc
  | some u => intro _; simp [mkOut, osub, ht]

theorem exactMergeOne_mem {wallet : List WalletRow} {b : BackendRow} {r : OutRow}
    (hr : r ∈ exactMergeOne wallet b) :
    (exactMatchesFor wallet b = [] ∧ r = mkOut (clean_id b.rid) b none none) ∨
    (∃ w ∈ exactMatchesFor wallet b,
      r = mkOut (clean_id b.rid) b w.ts_report (w.amount.map (|·|))) := by
  unfold exactMergeOne at hr
  cases hms : exactMatchesFor wallet b with
  | nil =>
    rw [hms] at hr
    simp at hr
    exact Or.inl ⟨rfl, hr⟩
  | cons w ws =>
    rw [hms] at hr
    rcases List.mem_map.mp hr with ⟨w0, hw0, hww⟩
    exact Or.inr ⟨w0, hms ▸ hw0, hww.symm⟩

theorem exactMergeOne_ts_backend {wallet : List WalletRow} {b : BackendRow} {r : OutRow}
    (hr : r ∈ exactMergeOne wallet b) : r.ts_report_backend = b.ts_report := by
  rcases exactMergeOne_mem hr with ⟨_, rfl⟩ | ⟨w, _, rfl⟩ <;> rfl

theorem exactMergeOne_length (wallet : List WalletRow) (b : BackendRow) :
    (exactMergeOne wallet b).length = max 1 (exactMatchesFor wallet b).length := by
  unfold exactMergeOne
  cases hms : exactMatchesFor wallet b with
  | nil => rfl
  | cons w ws => simp [Nat.max_eq_right (Nat.succ_le_succ (Nat.zero_le _))]

theorem exactMerged_rows {backend : List BackendRow} {wallet : List WalletRow}
    {rstart rend : ℚ} :
    ∀ r ∈ (backendWindow rstart rend backend).flatMap (exactMergeOne wallet),
      inWindow rstart rend r.ts_report_backend = true ∧
      (r.ts_report_wallet.isSome → r.delay_min.isSome) := by
  intro r hr
  rcases List.mem_flatMap.mp hr with ⟨b, hb, hrb⟩
  have hw := (mem_backendWindow.mp hb).2
  have hts := exactMergeOne_ts_backend hrb
  refine ⟨by rw [hts]; exact hw, ?_⟩
  have hbs : b.ts_report.isSome := inWindow_isSome hw
  rcases exactMergeOne_mem hrb with ⟨_, rfl⟩ | ⟨w, _, rfl⟩ <;>
    exact mkOut_wallet_delay hbs

theorem pickBestSub_bts_none (rwin : List RiseRow) (txnId : String) :
    pickBestSub rwin txnId none = (none, none) := by
  unfold pickBestSub
  cases rwin.filter (fun r => strContainsRegexD txnId r.desc.toUpper) <;> rfl

theorem pickBestEmail_bts_none (rwin : List RiseRow) (key : String) :
    pickBestEmail rwin key none = (none, none) := by
  unfold pickBestEmail
  cases rwin.filter (fun r => extract_email r.desc == some key) <;> rfl

theorem subMergeOne_rows (rwin : List RiseRow) (b : BackendRow) :
    (subMergeOne rwin b).ts_report_backend = b.ts_report ∧
    ((subMergeOne rwin b).ts_report_wallet.isSome →
      (subMergeOne rwin b).delay_min.isSome) := by
  refine ⟨rfl, ?_⟩
  cases hb : b.ts_report with
  | none =>
    intro hc
    exact absurd hc (by simp [subMergeOne, hb, pickBestSub_bts_none, mkOut])
  | some t => exact mkOut_wallet_delay (by rw [hb]; rfl)

theorem emailMergeOne_rows (rwin : List RiseRow) (b : BackendRow) :
    (emailMergeOne rwin b).ts_report_backend = b.ts_report ∧
    ((emailMergeOne rwin b).ts_report_wallet.isSome →
      (emailMergeOne rwin b).delay_min.isSome) := by
  refine ⟨rfl, ?_⟩
  cases hb : b.ts_report with
  | none =>
    intro hc
    exact absurd hc (by simp [emailMergeOne, hb, pickBestEmail_bts_none, mkOut])
  | some t => exact mkOut_wallet_delay (by rw [hb]; rfl)

/-! ## C4 -/

/-- C4: for every tolerance `t ≥ 0` and every merged row, classification
uses the absolute delay in minutes: a pair whose absolute delay is at most
(in particular exactly) the tolerance lands in `matched`, a pair whose
absolute delay strictly exceeds the tolerance lands in `late_sync`, and a
row lands in `missing_true` exactly when no counterparty was found. -/
theorem C4_classification_by_absolute_delay (merged : List OutRow) (rstart rend tol : ℚ)
    (_htol : 0 ≤ tol) :
    (∀ r ∈ merged, ∀ d : ℚ, r.delay_min = some d → r.ts_report_wallet.isSome →
      ((|d| ≤ tol → setBucket r ∈ (classifyAndSummarize merged rstart rend tol).matched) ∧
       (|d| = tol → setBucket r ∈ (classifyAndSummarize merged rstart rend tol).matched) ∧
       (tol < |d| → setBucket r ∈ (classifyAndSummarize merged rstart rend tol).late_sync))) ∧
    (∀ r ∈ merged, r.ts_report_wallet = none →
      setBucket r ∈ (classifyAndSummarize merged rstart rend tol).missing_true) ∧
    (∀ r ∈ (classifyAndSummarize merged rstart rend tol).missing_true,
      r.ts_report_wallet = none) := by
  refine ⟨?_, ?_, ?_⟩
  · intro r hr d hd hw
    refine ⟨?_, ?_, ?_⟩
    · intro hle
      exact mem_classify_matched.mpr ⟨r, ⟨hr, by simp [hw, absLeTol, hd, hle]⟩, rfl⟩
    · intro heq
      exact mem_classify_matched.mpr ⟨r, ⟨hr, by simp [hw, absLeTol, hd, heq.le]⟩, rfl⟩
    · intro hgt
      exact mem_classify_late.mpr ⟨r, ⟨hr, by simp [hw, absGtTol, hd, hgt]⟩, rfl⟩
  · intro r hr hw
    exact mem_classify_missing.mpr ⟨r, ⟨hr, by simp [hw, Option.isNone]⟩, rfl⟩
  · intro r hr
    rcases mem_classify_missing.mp hr with ⟨r0, ⟨_, h0⟩, hrr⟩
    have : r.ts_report_wallet = r0.ts_report_wallet := by rw [← hrr, setBucket_ts_wallet]
    rw [this]
    exact Option.isNone_iff_eq_none.mp h0

/-- Witness for C4 at the default tolerance `15`: a delay of exactly `15`
minutes is matched, a delay of `15.0001` minutes is late-sync, and a row
without counterparty is missing-true. -/
theorem C4_classification_by_absolute_delay_witness :
    setBucket cexRowTol ∈
      (classifyAndSummarize [cexRowTol, cexRowTolPlus, cexRowMissing] 0 180 15).matched ∧
    setBucket cexRowTolPlus ∈
      (classifyAndSummarize [cexRowTol, cexRowTolPlus, cexRowMissing] 0 180 15).late_sync ∧
    setBucket cexRowMissing ∈
      (classifyAndSummarize [cexRowTol, cexRowTolPlus, cexRowMissing] 0 180 15).missing_true := by
  have h := C4_classification_by_absolute_delay [cexRowTol, cexRowTolPlus, cexRowMissing]
    0 180 15 (by norm_num)
  refine ⟨?_, ?_, ?_⟩
  · exact ((h.1 cexRowTol (by simp) 15 rfl rfl).2.1 (by norm_num))
  · refine (h.1 cexRowTolPlus (by simp) (15 + 1 / 10000) rfl rfl).2.2 ?_
    rw [abs_of_pos (by norm_num)]
    norm_num
  · exact h.2.1 cexRowMissing (by simp) rfl

/-! ## C1 -/

/-- C1 fails on the code: under the exact-key-join strategy a duplicated
counterparty key is NOT resolved to the first-listed record.  With one
windowed backend record of key `K` and two wallet records whose
identifiers both clean to `K` (timestamps `0` and `100`), the left merge
emits two output rows — one matched (from the first wallet record) and
one late-sync (from the second) — not exactly one. -/
theorem C1_counterexample_duplicate_key_rows :
    (backendWindow 0 180 [cexB]).length = 1 ∧
    (reconExactRows [cexB] [cexW1, cexW2] 0 180 15).matched.length = 1 ∧
    (reconExactRows [cexB] [cexW1, cexW2] 0 180 15).late_sync.length = 1 ∧
    (reconExactRows [cexB] [cexW1, cexW2] 0 180 15).missing_true.length = 0 := by
  refine ⟨?_, ?_, ?_, ?_⟩ <;> with_unfolding_all rfl

/-- C1 amended: under the exact-key-join strategy every windowed backend
record is paired with EVERY counterparty record sharing the identical
trimmed-uppercase identifier, one output row per such record in
counterparty input order; a backend record with no key match yields one
unmatched row; hence the total number of output rows equals the sum over
windowed backend records of `max 1 (number of key-sharing counterparty
records)` — exactly one row per backend record only when its key does not
repeat on the counterparty side. -/
theorem C1_amended_exact_join_pairs_every_duplicate
    (backend : List BackendRow) (wallet : List WalletRow) (rstart rend tol : ℚ) :
    (∀ b : BackendRow,
      (exactMatchesFor wallet b ≠ [] →
        exactMergeOne wallet b = (exactMatchesFor wallet b).map
          (fun w => mkOut (clean_id b.rid) b w.ts_report (w.amount.map (|·|)))) ∧
      (exactMatchesFor wallet b = [] →
        exactMergeOne wallet b = [mkOut (clean_id b.rid) b none none]) ∧
      (exactMergeOne wallet b).length = max 1 (exactMatchesFor wallet b).length) ∧
    (reconExactRows backend wallet rstart rend tol).matched.length +
      (reconExactRows backend wallet rstart rend tol).late_sync.length +
      (reconExactRows backend wallet rstart rend tol).missing_true.length
      = ((backendWindow rstart rend backend).map
          (fun b => max 1 (exactMatchesFor wallet b).length)).sum := by
  constructor
  · intro b
    refine ⟨?_, ?_, exactMergeOne_length wallet b⟩
    · intro hne
      unfold exactMergeOne
      cases hms : exactMatchesFor wallet b with
      | nil => exact absurd hms hne
      | cons w ws => rfl
    · intro hms
      unfold exactMergeOne
      rw [hms]
  · have hpart := partition_length tol
      ((backendWindow rstart rend backend).flatMap (exactMergeOne wallet))
      (fun r hr => (exactMerged_rows r hr).2)
    have hlen : ((backendWindow rstart rend backend).flatMap (exactMergeOne wallet)).length
        = ((backendWindow rstart rend backend).map
            (fun b => max 1 (exactMatchesFor wallet b).length)).sum := by
      rw [List.length_flatMap]
      congr 1
      exact List.map_eq_map_iff.mpr (fun b _ => exactMergeOne_length wallet b)
    simp only [reconExactRows, classifyAndSummarize, List.length_map]
    rw [← hlen]
    exact hpart

/-- Witness for the amended C1: the backend record of key `K` is paired
with both duplicate wallet records, in input order. -/
theorem C1_amended_exact_join_pairs_every_duplicate_witness :
    exactMergeOne [cexW1, cexW2] cexB =
      [mkOut "K" cexB (some 0) (some 100), mkOut "K" cexB (some 100) (some 2)] := by
  have h := ((C1_amended_exact_join_pairs_every_duplicate [cexB] [cexW1, cexW2]
    0 180 15).1 cexB).1 (by with_unfolding_all decide)
  rw [h]
  with_unfolding_all rfl

/-! ## C2 helpers -/

theorem absLe_absGt_false {tol : ℚ} {d : Option ℚ}
    (h1 : absLeTol tol d = true) (h2 : absGtTol tol d = true) : False := by
  cases d with
  | none => simp [absLeTol] at h1
  | some x =>
    simp only [absLeTol, decide_eq_true_eq] at h1
    simp only [absGtTol, decide_eq_true_eq] at h2
    linarith

theorem mem_matched_props {merged : List OutRow} {rstart rend tol : ℚ} {r : OutRow}
    (h : r ∈ (classifyAndSummarize merged rstart rend tol).matched) :
    r.ts_report_wallet.isSome = true ∧ absLeTol tol r.delay_min = true := by
  rcases mem_classify_matched.mp h with ⟨r0, ⟨_, hc⟩, hrr⟩
  rw [← hrr]
  simpa [setBucket_ts_wallet, setBucket_delay] using hc

theorem mem_late_props {merged : List OutRow} {rstart rend tol : ℚ} {r : OutRow}
    (h : r ∈ (classifyAndSummarize merged rstart rend tol).late_sync) :
    r.ts_report_wallet.isSome = true ∧ absGtTol tol r.delay_min = true := by
  rcases mem_classify_late.mp h with ⟨r0, ⟨_, hc⟩, hrr⟩
  rw [← hrr]
  simpa [setBucket_ts_wallet, setBucket_delay] using hc

theorem mem_missing_props {merged : List OutRow} {rstart rend tol : ℚ} {r : OutRow}
    (h : r ∈ (classifyAndSummarize merged rstart rend tol).missing_true) :
    r.ts_report_wallet = none := by
  rcases mem_classify_missing.mp h with ⟨r0, ⟨_, hc⟩, hrr⟩
  rw [← hrr, setBucket_ts_wallet]
  exact Option.isNone_iff_eq_none.mp hc

theorem classify_pairwise_disjoint (merged : List OutRow) (rstart rend tol : ℚ)
    (r : OutRow) :
    (r ∈ (classifyAndSummarize merged rstart rend tol).matched →
      r ∉ (classifyAndSummarize merged rstart rend tol).late_sync ∧
      r ∉ (classifyAndSummarize merged rstart rend tol).missing_true) ∧
    (r ∈ (classifyAndSummarize merged rstart rend tol).late_sync →
      r ∉ (classifyAndSummarize merged rstart rend tol).missing_true) := by
  constructor
  · intro hm
    constructor
    · intro hl
      exact absLe_absGt_false (mem_matched_props hm).2 (mem_late_props hl).2
    · intro hmi
      have h1 := (mem_matched_props hm).1
      rw [mem_missing_props hmi] at h1
      simp at h1
  · intro hl hmi
    have h1 := (mem_late_props hl).1
    rw [mem_missing_props hmi] at h1
    simp at h1

theorem classify_window (merged : List OutRow) (rstart rend tol : ℚ)
    (h : ∀ r ∈ merged, inWindow rstart rend r.ts_report_backend = true) :
    ∀ r ∈ allRows (classifyAndSummarize merged rstart rend tol),
      inWindow rstart rend r.ts_report_backend = true := by
  intro r hr
  simp only [allRows, List.mem_append] at hr
  rcases hr with (hr | hr) | hr
  · rcases mem_classify_matched.mp hr with ⟨r0, ⟨h0, _⟩, hrr⟩
    rw [← hrr, setBucket_ts_backend]; exact h r0 h0
  · rcases mem_classify_late.mp hr with ⟨r0, ⟨h0, _⟩, hrr⟩
    rw [← hrr, setBucket_ts_backend]; exact h r0 h0
  · rcases mem_classify_missing.mp hr with ⟨r0, ⟨h0, _⟩, hrr⟩
    rw [← hrr, setBucket_ts_backend]; exact h r0 h0

theorem classify_total_length (merged : List OutRow) (rstart rend tol : ℚ)
    (h : ∀ r ∈ merged, r.ts_report_wallet.isSome → r.delay_min.isSome) :
    (classifyAndSummarize merged rstart rend tol).matched.length +
      (classifyAndSummarize merged rstart rend tol).late_sync.length +
      (classifyAndSummarize merged rstart rend tol).missing_true.length = merged.length := by
  simp only [classifyAndSummarize, List.length_map]
  exact partition_length tol merged h

theorem subMerged_props (backend : List BackendRow) (rwin : List RiseRow)
    (rstart rend : ℚ) :
    ∀ r ∈ (backendWindow rstart rend backend).map (subMergeOne rwin),
      inWindow rstart rend r.ts_report_backend = true ∧
      (r.ts_report_wallet.isSome → r.delay_min.isSome) := by
  intro r hr
  rcases List.mem_map.mp hr with ⟨b, hb, hrb⟩
  have hw := (mem_backendWindow.mp hb).2
  rw [← hrb]
  exact ⟨by rw [(subMergeOne_rows rwin b).1]; exact hw, (subMergeOne_rows rwin b).2⟩

theorem emailMerged_props (backend : List BackendRow) (rwin : List RiseRow)
    (rstart rend : ℚ) :
    ∀ r ∈ (backendWindow rstart rend backend).map (emailMergeOne rwin),
      inWindow rstart rend r.ts_report_backend = true ∧
      (r.ts_report_wallet.isSome → r.delay_min.isSome) := by
  intro r hr
  rcases List.mem_map.mp hr with ⟨b, hb, hrb⟩
  have hw := (mem_backendWindow.mp hb).2
  rw [← hrb]
  exact ⟨by rw [(emailMergeOne_rows rwin b).1]; exact hw, (emailMergeOne_rows rwin b).2⟩

theorem reconSubRows_ok {backend : List BackendRow} {rise : List RiseRow}
    {rstart rend tol : ℚ} {res : ReconResult}
    (h : reconSubRows backend rise rstart rend tol = .ok res) :
    res = classifyAndSummarize
      ((backendWindow rstart rend backend).map (subMergeOne (riseWindow rstart rend rise)))
      rstart rend tol := by
  cases he : firstParseErr (backendWindow rstart rend backend) with
  | none =>
    simp only [reconSubRows, he] at h
    injection h with h2
    exact h2.symm
  | some e =>
    simp only [reconSubRows, he] at h
    simp at h

/-! ## C2 -/

/-- C2 fails on the code: under the exact strategy with a duplicated
counterparty key, the single windowed backend record of key `K` yields a
row in `matched` AND a row in `late_sync`, so the three tables do not
partition the windowed backend records. -/
theorem C2_counterexample_record_in_two_tables :
    (backendWindow 0 180 [cexB]).map (fun b => clean_id b.rid) = ["K"] ∧
    (reconExactRows [cexB] [cexW1, cexW2] 0 180 15).matched.map (·.txn_id) = ["K"] ∧
    (reconExactRows [cexB] [cexW1, cexW2] 0 180 15).late_sync.map (·.txn_id) = ["K"] := by
  refine ⟨?_, ?_, ?_⟩ <;> with_unfolding_all rfl

/-- C2 amended: the three output tables are pairwise disjoint and
partition the merged CANDIDATE rows, each of which carries a windowed
backend timestamp; under the substring and email strategies (one candidate
row per windowed backend record), and under the exact strategy when no
counterparty key repeats, the three tables together hold exactly one row
per windowed backend record; records outside `[report_start, report_end)`
appear in no table. -/
theorem C2_amended_partition_of_candidate_rows
    (backend : List BackendRow) (wallet : List WalletRow) (rise : List RiseRow)
    (rstart rend tol : ℚ) :
    (∀ r : OutRow,
      (r ∈ (reconExactRows backend wallet rstart rend tol).matched →
        r ∉ (reconExactRows backend wallet rstart rend tol).late_sync ∧
        r ∉ (reconExactRows backend wallet rstart rend tol).missing_true) ∧
      (r ∈ (reconExactRows backend wallet rstart rend tol).late_sync →
        r ∉ (reconExactRows backend wallet rstart rend tol).missing_true)) ∧
    (∀ r ∈ allRows (reconExactRows backend wallet rstart rend tol),
      inWindow rstart rend r.ts_report_backend = true) ∧
    ((∀ b ∈ backend, (exactMatchesFor wallet b).length ≤ 1) →
      (reconExactRows backend wallet rstart rend tol).matched.length +
        (reconExactRows backend wallet rstart rend tol).late_sync.length +
        (reconExactRows backend wallet rstart rend tol).missing_true.length
        = (backendWindow rstart rend backend).length) ∧
    (∀ res : ReconResult, reconSubRows backend rise rstart rend tol = .ok res →
      (res.matched.length + res.late_sync.length + res.missing_true.length
        = (backendWindow rstart rend backend).length) ∧
      (∀ r : OutRow,
        (r ∈ res.matched → r ∉ res.late_sync ∧ r ∉ res.missing_true) ∧
        (r ∈ res.late_sync → r ∉ res.missing_true)) ∧
      (∀ r ∈ allRows res, inWindow rstart rend r.ts_report_backend = true)) ∧
    ((reconEmailRows backend rise rstart rend tol).matched.length +
      (reconEmailRows backend rise rstart rend tol).late_sync.length +
      (reconEmailRows backend rise rstart rend tol).missing_true.length
      = (backendWindow rstart rend backend).length) ∧
    (∀ r : OutRow,
      (r ∈ (reconEmailRows backend rise rstart rend tol).matched →
        r ∉ (reconEmailRows backend rise rstart rend tol).late_sync ∧
        r ∉ (reconEmailRows backend rise rstart rend tol).missing_true) ∧
      (r ∈ (reconEmailRows backend rise rstart rend tol).late_sync →
        r ∉ (reconEmailRows backend rise rstart rend tol).missing_true)) ∧
    (∀ r ∈ allRows (reconEmailRows backend rise rstart rend tol),
      inWindow rstart rend r.ts_report_backend = true) := by
  refine ⟨?_, ?_, ?_, ?_, ?_, ?_, ?_⟩
  · intro r
    exact classify_pairwise_disjoint _ rstart rend tol r
  · exact classify_window _ rstart rend tol (fun r hr => (exactMerged_rows r hr).1)
  · intro huniq
    have h := classify_total_length
      ((backendWindow rstart rend backend).flatMap (exactMergeOne wallet))
      rstart rend tol (fun r hr => (exactMerged_rows r hr).2)
    simp only [reconExactRows]
    rw [h, List.length_flatMap]
    have hone : ∀ b ∈ backendWindow rstart rend backend,
        (exactMergeOne wallet b).length = 1 := by
      intro b hb
      rw [exactMergeOne_length]
      have := huniq b (mem_backendWindow.mp hb).1
      omega
    calc ((backendWindow rstart rend backend).map
            (fun b => (exactMergeOne wallet b).length)).sum
        = ((backendWindow rstart rend backend).map (fun _ => 1)).sum := by
          congr 1
          exact List.map_eq_map_iff.mpr hone
      _ = (backendWindow rstart rend backend).length := by
          simp
  · intro res hres
    rw [reconSubRows_ok hres]
    refine ⟨?_, ?_, ?_⟩
    · have h := classify_total_length
        ((backendWindow rstart rend backend).map (subMergeOne (riseWindow rstart rend rise)))
        rstart rend tol
        (fun r hr => (subMerged_props backend (riseWindow rstart rend rise) rstart rend r hr).2)
      rw [h, List.length_map]
    · intro r
      exact classify_pairwise_disjoint _ rstart rend tol r
    · exact classify_window _ rstart rend tol
        (fun r hr => (subMerged_props backend (riseWindow rstart rend rise) rstart rend r hr).1)
  · have h := classify_total_length
      ((backendWindow rstart rend backend).map (emailMergeOne (riseWindow rstart rend rise)))
      rstart rend tol
      (fun r hr => (emailMerged_props backend (riseWindow rstart rend rise) rstart rend r hr).2)
    simp only [reconEmailRows]
    rw [h, List.length_map]
  · intro r
    exact classify_pairwise_disjoint _ rstart rend tol r
  · exact classify_window _ rstart rend tol
      (fun r hr => (emailMerged_props backend (riseWindow rstart rend rise) rstart rend r hr).1)

/-- Witness for the amended C2: with unique counterparty keys the exact
strategy emits exactly one row for the one windowed backend record, and
the substring run on a compiling identifier does the same. -/
theorem C2_amended_partition_of_candidate_rows_witness :
    ((reconExactRows [cexB] [cexW1] 0 180 15).matched.length +
      (reconExactRows [cexB] [cexW1] 0 180 15).late_sync.length +
      (reconExactRows [cexB] [cexW1] 0 180 15).missing_true.length = 1) ∧
    ((classifyAndSummarize ((backendWindow 0 180 [cexB3]).map
        (subMergeOne (riseWindow 0 180 [cexR3]))) 0 180 15).matched.length +
      (classifyAndSummarize ((backendWindow 0 180 [cexB3]).map
        (subMergeOne (riseWindow 0 180 [cexR3]))) 0 180 15).late_sync.length +
      (classifyAndSummarize ((backendWindow 0 180 [cexB3]).map
        (subMergeOne (riseWindow 0 180 [cexR3]))) 0 180 15).missing_true.length = 1) := by
  constructor
  · have h := (C2_amended_partition_of_candidate_rows [cexB] [cexW1] [] 0 180 15).2.2.1
      (by with_unfolding_all decide)
    rw [h]
    with_unfolding_all rfl
  · have h := ((C2_amended_partition_of_candidate_rows [cexB3] [cexW1] [cexR3] 0 180 15).2.2.2.1
      (classifyAndSummarize ((backendWindow 0 180 [cexB3]).map
        (subMergeOne (riseWindow 0 180 [cexR3]))) 0 180 15)
      (by with_unfolding_all rfl)).1
    rw [h]
    with_unfolding_all rfl

/-! ## C3 -/

/-- C3 is right and the code is wrong: the code's own docstring promises
that the backend identifier "appears inside" the Rise description, i.e. a
literal substring test, but `str.contains` defaults to regular-expression
matching.  At identifier `A.C` the code matches the description `AXC`,
which does not contain `A.C` literally; identifiers ending in `+` or `*`
match inputs that do not contain them; and an identifier with an
unbalanced `(` raises instead of returning unmatched, aborting the whole
run. -/
theorem C3_contains_is_regex_not_literal :
    strContainsRegex "A.C" "AXC" = .ok true ∧
    literalContains "A.C" "AXC" = false ∧
    strContainsRegex "AB+" "AB" = .ok true ∧
    literalContains "AB+" "AB" = false ∧
    strContainsRegex "AB*" "A" = .ok true ∧
    literalContains "AB*" "A" = false ∧
    strContainsRegex "ABC(" "ABC(" = .error "re.error: unbalanced or unsupported metacharacter" ∧
    (reconSubRows [cexB3] [cexR3] 0 180 15).map (fun res => res.matched.length) = .ok 1 ∧
    (reconSubRows [cexB3] [cexR3] 0 180 15).map (fun res => res.missing_true.length) = .ok 0 ∧
    reconSubRows [cexB3bad] [cexR3] 0 180 15 =
      .error "re.error: unbalanced or unsupported metacharacter" := by
  refine ⟨?_, ?_, ?_, ?_, ?_, ?_, ?_, ?_, ?_, ?_⟩ <;> with_unfolding_all rfl

/-! ## C5 helpers -/

theorem bucket_mem_bucketStarts {rstart rend t : ℚ} (halign : ∃ m : ℤ, rstart = 180 * m)
    (h1 : rstart ≤ t) (h2 : t < rend) : bucket_3h t ∈ bucketStarts rstart rend := by
  rcases halign with ⟨m, rfl⟩
  have hle : (m : ℚ) ≤ t / 180 := by
    rw [le_div_iff₀ (by norm_num : (0:ℚ) < 180)]
    linarith
  have hmj : m ≤ ⌊t / 180⌋ := Int.le_floor.mpr hle
  have hfl : (⌊t / 180⌋ : ℚ) * 180 ≤ t := by
    have := Int.floor_le (t / 180)
    calc (⌊t / 180⌋ : ℚ) * 180 ≤ t / 180 * 180 := by
          apply mul_le_mul_of_nonneg_right this (by norm_num)
      _ = t := by field_simp
  have hk : ⌊t / 180⌋ - m < ⌈(rend - 180 * m) / 180⌉ := by
    apply Int.lt_ceil.mpr
    rw [lt_div_iff₀ (by norm_num : (0:ℚ) < 180)]
    push_cast
    linarith
  have hnn : 0 ≤ ⌊t / 180⌋ - m := by omega
  have hklt : (⌊t / 180⌋ - m).toNat < (⌈(rend - 180 * (m : ℚ)) / 180⌉).toNat :=
    Int.lt_toNat.mpr (by rw [Int.toNat_of_nonneg hnn]; exact hk)
  have hcast : (((⌊t / 180⌋ - m).toNat : ℕ) : ℚ) = ((⌊t / 180⌋ : ℚ) - m) :=
    mod_cast congrArg (fun z : ℤ => (z : ℚ)) (Int.toNat_of_nonneg hnn)
  have hval : 180 * (m : ℚ) + 180 * (((⌊t / 180⌋ - m).toNat : ℕ) : ℚ) = bucket_3h t := by
    rw [hcast]
    unfold bucket_3h
    ring
  have hmem : bucket_3h t ∈ (List.range ((⌈(rend - 180 * (m : ℚ)) / 180⌉).toNat)).map
      (fun k : ℕ => 180 * (m : ℚ) + 180 * (k : ℚ)) := by
    rw [← hval]
    exact List.mem_map_of_mem _ (List.mem_range.mpr hklt)
  unfold bucketStarts
  exact hmem

theorem summary_row_of_bucket {matched late missing : List OutRow} {rstart rend beta : ℚ}
    (hb : beta ∈ bucketStarts rstart rend) :
    ∃ s ∈ build_summary matched late missing rstart rend,
      s.bucket_3h = beta ∧
      s.matched_count = (matched.filter (fun r => r.bucket_3h == some beta)).length ∧
      s.late_sync_count = (late.filter (fun r => r.bucket_3h == some beta)).length ∧
      s.missing_count = (missing.filter (fun r => r.bucket_3h == some beta)).length := by
  refine ⟨_, List.mem_map.mpr ⟨beta, hb, rfl⟩, rfl, rfl, rfl, rfl⟩

theorem mem_table_bucket {merged : List OutRow} {rstart rend tol : ℚ} {r : OutRow}
    (hr : r ∈ allRows (classifyAndSummarize merged rstart rend tol)) :
    r.bucket_3h = r.ts_report_backend.map bucket_3h := by
  simp only [allRows, List.mem_append] at hr
  have : ∃ r0, setBucket r0 = r := by
    rcases hr with (hr | hr) | hr
    · rcases mem_classify_matched.mp hr with ⟨r0, _, hrr⟩; exact ⟨r0, hrr⟩
    · rcases mem_classify_late.mp hr with ⟨r0, _, hrr⟩; exact ⟨r0, hrr⟩
    · rcases mem_classify_missing.mp hr with ⟨r0, _, hrr⟩; exact ⟨r0, hrr⟩
  rcases this with ⟨r0, rfl⟩
  rfl

/-! ## C5 -/

/-- C5 fails on the code: `dt.floor("3H")` floors to the 3-hour grid
anchored at midnight/epoch, not to the grid aligned to the interval
start.  With the report interval starting at minute `60` and a matched
record at minute `90`, the record's bucket is `0` — not one of the
synthesized window starts (`60`) — and the summary's only row carries
zero counts and sums, dropping the record's aggregates in the left
join. -/
theorem C5_counterexample_bucket_not_aligned_to_start :
    (reconExactRows [cexB5] [cexW5] 60 240 15).matched.map (·.bucket_3h) = [some 0] ∧
    (reconExactRows [cexB5] [cexW5] 60 240 15).matched.length = 1 ∧
    (reconExactRows [cexB5] [cexW5] 60 240 15).summary_3h = [zeroSummaryRow 60] := by
  refine ⟨?_, ?_, ?_⟩ <;> with_unfolding_all rfl

/-- C5 amended: a classified record's bucket is the floor of its
normalized backend timestamp to the 3-hour grid anchored at the
epoch/midnight; when `report_start` itself lies on that grid, every
classified record's bucket is one of the synthesized window starts, and
the summary row at that bucket counts the record (no aggregates are
dropped by the left join). -/
theorem C5_amended_bucket_floor_epoch_grid (merged : List OutRow) (rstart rend tol : ℚ)
    (hwin : ∀ r ∈ merged, inWindow rstart rend r.ts_report_backend = true)
    (halign : ∃ m : ℤ, rstart = 180 * m) :
    (∀ r ∈ allRows (classifyAndSummarize merged rstart rend tol),
      r.bucket_3h = r.ts_report_backend.map bucket_3h) ∧
    (∀ r ∈ (classifyAndSummarize merged rstart rend tol).matched,
      ∃ s ∈ (classifyAndSummarize merged rstart rend tol).summary_3h,
        some s.bucket_3h = r.bucket_3h ∧ 0 < s.matched_count) ∧
    (∀ r ∈ (classifyAndSummarize merged rstart rend tol).late_sync,
      ∃ s ∈ (classifyAndSummarize merged rstart rend tol).summary_3h,
        some s.bucket_3h = r.bucket_3h ∧ 0 < s.late_sync_count) ∧
    (∀ r ∈ (classifyAndSummarize merged rstart rend tol).missing_true,
      ∃ s ∈ (classifyAndSummarize merged rstart rend tol).summary_3h,
        some s.bucket_3h = r.bucket_3h ∧ 0 < s.missing_count) := by
  have hbucket : ∀ r ∈ allRows (classifyAndSummarize merged rstart rend tol),
      ∃ t : ℚ, r.ts_report_backend = some t ∧ rstart ≤ t ∧ t < rend ∧
        r.bucket_3h = some (bucket_3h t) := by
    intro r hr
    have hw := classify_window merged rstart rend tol hwin r hr
    have hb := mem_table_bucket hr
    cases ht : r.ts_report_backend with
    | none => rw [ht] at hw; simp [inWindow] at hw
    | some t =>
      rw [ht] at hw
      rcases inWindow_some_iff.mp hw with ⟨h1, h2⟩
      exact ⟨t, rfl, h1, h2, by rw [hb, ht]; rfl⟩
  refine ⟨fun r hr => mem_table_bucket hr, ?_, ?_, ?_⟩
  · intro r hr
    have hr2 : r ∈ allRows (classifyAndSummarize merged rstart rend tol) := by
      simp [allRows, hr]
    rcases hbucket r hr2 with ⟨t, _, h1, h2, hb⟩
    rcases summary_row_of_bucket (bucket_mem_bucketStarts halign h1 h2)
      with ⟨s, hs, hsb, hsm, _, _⟩
    refine ⟨s, hs, by rw [hsb, hb], ?_⟩
    rw [hsm]
    apply List.length_pos.mpr
    refine List.ne_nil_of_mem (List.mem_filter.mpr ⟨hr, ?_⟩)
    rw [hb]
    exact beq_self_eq_true _
  · intro r hr
    have hr2 : r ∈ allRows (classifyAndSummarize merged rstart rend tol) := by
      simp [allRows, hr]
    rcases hbucket r hr2 with ⟨t, _, h1, h2, hb⟩
    rcases summary_row_of_bucket (bucket_mem_bucketStarts halign h1 h2)
      with ⟨s, hs, hsb, _, hsl, _⟩
    refine ⟨s, hs, by rw [hsb, hb], ?_⟩
    rw [hsl]
    apply List.length_pos.mpr
    refine List.ne_nil_of_mem (List.mem_filter.mpr ⟨hr, ?_⟩)
    rw [hb]
    exact beq_self_eq_true _
  · intro r hr
    have hr2 : r ∈ allRows (classifyAndSummarize merged rstart rend tol) := by
      simp [allRows, hr]
    rcases hbucket r hr2 with ⟨t, _, h1, h2, hb⟩
    rcases summary_row_of_bucket (bucket_mem_bucketStarts halign h1 h2)
      with ⟨s, hs, hsb, _, _, hsm⟩
    refine ⟨s, hs, by rw [hsb, hb], ?_⟩
    rw [hsm]
    apply List.length_pos.mpr
    refine List.ne_nil_of_mem (List.mem_filter.mpr ⟨hr, ?_⟩)
    rw [hb]
    exact beq_self_eq_true _

/-- Witness for the amended C5: with the aligned interval `[0, 180)`, the
matched row at backend minute `20` is counted by a summary row at its
bucket. -/
theorem C5_amended_bucket_floor_epoch_grid_witness :
    ∃ s ∈ (classifyAndSummarize [cexRowTol] 0 180 15).summary_3h,
      some s.bucket_3h = (setBucket cexRowTol).bucket_3h ∧ 0 < s.matched_count := by
  exact (C5_amended_bucket_floor_epoch_grid [cexRowTol] 0 180 15
    (by intro r hr; fin_cases hr; with_unfolding_all decide)
    ⟨0, by norm_num⟩).2.1 (setBucket cexRowTol) (by with_unfolding_all decide)

/-! ## C6 -/

/-- C6: for every reporting interval with `start < end` the summary has
exactly `⌈(end - start)/3h⌉` bucket rows — the synthesized window starts
are precisely the grid points `start + 180k` below `end` — and a window
with no classified activity carries all counts `0` and all sums `0.0`. -/
theorem C6_window_completeness (rstart rend : ℚ) (h : rstart < rend)
    (matched late missing : List OutRow) :
    ((build_summary matched late missing rstart rend).length : ℤ)
      = ⌈(rend - rstart) / 180⌉ ∧
    (∀ k : ℕ, rstart + 180 * (k : ℚ) ∈ bucketStarts rstart rend ↔
      rstart + 180 * (k : ℚ) < rend) ∧
    (∀ s ∈ build_summary matched late missing rstart rend,
      (∀ r ∈ matched, r.bucket_3h ≠ some s.bucket_3h) →
      (∀ r ∈ late, r.bucket_3h ≠ some s.bucket_3h) →
      (∀ r ∈ missing, r.bucket_3h ≠ some s.bucket_3h) →
      s = zeroSummaryRow s.bucket_3h) := by
  have hpos : (0 : ℚ) < (rend - rstart) / 180 := by
    apply div_pos (by linarith) (by norm_num)
  refine ⟨?_, ?_, ?_⟩
  · simp only [build_summary, bucketStarts, List.length_map, List.length_range]
    exact Int.toNat_of_nonneg (le_of_lt (Int.ceil_pos.mpr hpos))
  · intro k
    constructor
    · intro hk
      rcases List.mem_map.mp hk with ⟨j, hj, hjk⟩
      have hjk2 : (j : ℚ) = (k : ℚ) := by
        have hcancel := add_left_cancel hjk
        exact mul_left_cancel₀ (by norm_num : (180 : ℚ) ≠ 0) hcancel
      have hjlt : (j : ℤ) < ⌈(rend - rstart) / 180⌉ :=
        Int.lt_toNat.mp (List.mem_range.mp hj)
      have : ((j : ℤ) : ℚ) < (rend - rstart) / 180 := by
        have hceil := Int.ceil_lt_add_one ((rend - rstart) / 180)
        have : ((j : ℤ) : ℚ) + 1 ≤ (⌈(rend - rstart) / 180⌉ : ℚ) := by
          exact_mod_cast Int.add_one_le_iff.mpr hjlt
        linarith
      rw [← hjk2]
      have h2 : (j : ℚ) * 180 < rend - rstart := by
        rw [lt_div_iff₀ (by norm_num : (0:ℚ) < 180)] at this
        push_cast at this
        linarith
      linarith
    · intro hk
      have h1 : (k : ℚ) < (rend - rstart) / 180 := by
        rw [lt_div_iff₀ (by norm_num : (0:ℚ) < 180)]
        linarith
      have h2 : (k : ℤ) < ⌈(rend - rstart) / 180⌉ := by
        apply Int.lt_ceil.mpr
        exact_mod_cast h1
      unfold bucketStarts
      exact List.mem_map_of_mem _ (List.mem_range.mpr (Int.lt_toNat.mpr h2))
  · intro s hs h1 h2 h3
    rcases List.mem_map.mp hs with ⟨beta, _, rfl⟩
    have e1 : matched.filter (fun r => r.bucket_3h == some beta) = [] := by
      apply List.filter_eq_nil_iff.mpr
      intro r hr
      simpa using h1 r hr
    have e2 : late.filter (fun r => r.bucket_3h == some beta) = [] := by
      apply List.filter_eq_nil_iff.mpr
      intro r hr
      simpa using h2 r hr
    have e3 : missing.filter (fun r => r.bucket_3h == some beta) = [] := by
      apply List.filter_eq_nil_iff.mpr
      intro r hr
      simpa using h3 r hr
    simp [zeroSummaryRow, e1, e2, e3, optSum]

/-- Witness for C6 on the interval `[0, 240)` minutes: `⌈240/180⌉ = 2`
summary rows, and the grid point `180` lies in the synthesized windows
since `180 < 240`. -/
theorem C6_window_completeness_witness :
    ((build_summary [] [] [] (0 : ℚ) 240).length : ℤ) = ⌈((240 : ℚ) - 0) / 180⌉ ∧
    ((0 : ℚ) + 180 * ((1 : ℕ) : ℚ) ∈ bucketStarts 0 240 ↔
      (0 : ℚ) + 180 * ((1 : ℕ) : ℚ) < 240) ∧
    (build_summary [] [] [] (0 : ℚ) 240).length = 2 := by
  have h := C6_window_completeness 0 240 (by norm_num) [] [] []
  exact ⟨h.1, h.2.1 1, by with_unfolding_all rfl⟩

/-! ## C7 helpers -/

theorem argminFirst_isSome (f : RiseRow → ℚ) (r : RiseRow) (rs : List RiseRow) :
    ∃ b, argminFirst f (r :: rs) = some b := by
  unfold argminFirst
  cases argminFirst f rs with
  | none => exact ⟨r, rfl⟩
  | some best =>
    by_cases h : f r ≤ f best
    · exact ⟨r, by simp [h]⟩
    · exact ⟨best, by simp [h]⟩

theorem argminFirst_none_iff (f : RiseRow → ℚ) (l : List RiseRow) :
    argminFirst f l = none ↔ l = [] := by
  cases l with
  | nil => simp [argminFirst]
  | cons a rs =>
    rcases argminFirst_isSome f a rs with ⟨b, hb⟩
    simp [hb]

theorem argminFirst_spec (f : RiseRow → ℚ) :
    ∀ (l : List RiseRow) (r : RiseRow), argminFirst f l = some r →
      ∃ l1 l2, l = l1 ++ r :: l2 ∧ (∀ x ∈ l, f r ≤ f x) ∧ ∀ x ∈ l1, f r < f x := by
  intro l
  induction l with
  | nil => intro r h; simp [argminFirst] at h
  | cons a rs ih =>
    intro r h
    unfold argminFirst at h
    cases hrec : argminFirst f rs with
    | none =>
      rw [hrec] at h
      have hra : a = r := by injection h
      have hrs : rs = [] := (argminFirst_none_iff f rs).mp hrec
      subst hra hrs
      refine ⟨[], [], rfl, ?_, by intro x hx; simp at hx⟩
      intro x hx
      simp at hx
      rw [hx]
    | some best =>
      rw [hrec] at h
      rcases ih best hrec with ⟨l1, l2, hsplit, hmin, hstrict⟩
      by_cases hle : f a ≤ f best
      · simp only [if_pos hle] at h
        have hra : a = r := by injection h
        subst hra
        refine ⟨[], rs, rfl, ?_, by intro x hx; simp at hx⟩
        intro x hx
        rcases List.mem_cons.mp hx with rfl | hx
        · exact le_refl _
        · exact le_trans hle (hmin x hx)
      · simp only [if_neg hle] at h
        have hrb : best = r := by injection h
        subst hrb
        have hlt : f best < f a := lt_of_not_le hle
        refine ⟨a :: l1, l2, by rw [hsplit, List.cons_append], ?_, ?_⟩
        · intro x hx
          rcases List.mem_cons.mp hx with rfl | hx
          · exact le_of_lt hlt
          · exact hmin x hx
        · intro x hx
          rcases List.mem_cons.mp hx with rfl | hx
          · exact hlt
          · exact hstrict x hx

theorem pickBestSub_spec {rwin : List RiseRow} {txnId : String} {bts : ℚ}
    {wts wamt : Option ℚ}
    (h : pickBestSub rwin txnId (some bts) = (wts, wamt)) (hsome : wts.isSome) :
    ∃ rr,
      (rr ∈ rwin ∧ strContainsRegexD txnId rr.desc.toUpper = true) ∧
      wts = rr.ts_report ∧ wamt = rr.amount.map (|·|) ∧
      (∀ x ∈ rwin.filter (fun r => strContainsRegexD txnId r.desc.toUpper),
        absDelta bts rr ≤ absDelta bts x) ∧
      ∃ l1 l2,
        rwin.filter (fun r => strContainsRegexD txnId r.desc.toUpper) = l1 ++ rr :: l2 ∧
        ∀ x ∈ l1, absDelta bts rr < absDelta bts x := by
  unfold pickBestSub at h
  cases hm : rwin.filter (fun r => strContainsRegexD txnId r.desc.toUpper) with
  | nil =>
    rw [hm] at h
    simp only [Prod.mk.injEq] at h
    obtain ⟨h1, h2⟩ := h
    rw [← h1] at hsome
    simp at hsome
  | cons c cs =>
    rw [hm] at h
    cases hmin : argminFirst (absDelta bts) (c :: cs) with
    | none => simp [argminFirst_none_iff] at hmin
    | some rr =>
      simp only [hmin, Prod.mk.injEq] at h
      rcases argminFirst_spec (absDelta bts) (c :: cs) rr hmin with ⟨l1, l2, hsplit, hmn, hst⟩
      have hmem : rr ∈ c :: cs := by rw [hsplit]; exact List.mem_append_right _ (List.mem_cons_self _ _)
      have hmem2 : rr ∈ rwin.filter (fun r => strContainsRegexD txnId r.desc.toUpper) := by
        rw [hm]; exact hmem
      rcases List.mem_filter.mp hmem2 with ⟨hrw, hpred⟩
      exact ⟨rr, ⟨hrw, hpred⟩, h.1.symm, h.2.symm, hmn, l1, l2, hsplit, hst⟩

theorem pickBestEmail_spec {rwin : List RiseRow} {key : String} {bts : ℚ}
    {wts wamt : Option ℚ}
    (h : pickBestEmail rwin key (some bts) = (wts, wamt)) (hsome : wts.isSome) :
    ∃ rr,
      (rr ∈ rwin ∧ extract_email rr.desc = some key) ∧
      wts = rr.ts_report ∧ wamt = rr.amount.map (|·|) ∧
      (∀ x ∈ rwin.filter (fun r => extract_email r.desc == some key),
        absDelta bts rr ≤ absDelta bts x) ∧
      ∃ l1 l2,
        rwin.filter (fun r => extract_email r.desc == some key) = l1 ++ rr :: l2 ∧
        ∀ x ∈ l1, absDelta bts rr < absDelta bts x := by
  unfold pickBestEmail at h
  cases hm : rwin.filter (fun r => extract_email r.desc == some key) with
  | nil =>
    rw [hm] at h
    simp only [Prod.mk.injEq] at h
    obtain ⟨h1, h2⟩ := h
    rw [← h1] at hsome
    simp at hsome
  | cons c cs =>
    rw [hm] at h
    cases hmin : argminFirst (absDelta bts) (c :: cs) with
    | none => simp [argminFirst_none_iff] at hmin
    | some rr =>
      simp only [hmin, Prod.mk.injEq] at h
      rcases argminFirst_spec (absDelta bts) (c :: cs) rr hmin with ⟨l1, l2, hsplit, hmn, hst⟩
      have hmem : rr ∈ c :: cs := by rw [hsplit]; exact List.mem_append_right _ (List.mem_cons_self _ _)
      have hmem2 : rr ∈ rwin.filter (fun r => extract_email r.desc == some key) := by
        rw [hm]; exact hmem
      rcases List.mem_filter.mp hmem2 with ⟨hrw, hpred⟩
      exact ⟨rr, ⟨hrw, by simpa using hpred⟩, h.1.symm, h.2.symm, hmn, l1, l2, hsplit, hst⟩

/-! ## C7 -/

/-- C7: under the substring and email strategies the chosen counterparty
record always comes from the margin-filtered frame — timestamps in
`[report_start - 6h, report_end + 6h)`, so records outside the margin are
never matched even if their description contains the identifier or email —
and among the eligible candidates the one with minimum absolute time
distance to the backend timestamp is chosen, ties broken by the first
candidate in counterparty input order. -/
theorem C7_margin_window_and_nearest_timestamp (rise : List RiseRow) (rstart rend : ℚ)
    (txnId key : String) (bts : ℚ) (wts wamt : Option ℚ) :
    (∀ rr ∈ riseWindow rstart rend rise,
      rr ∈ rise ∧ inWindow (rstart - 360) (rend + 360) rr.ts_report = true) ∧
    (∀ rr ∈ rise, inWindow (rstart - 360) (rend + 360) rr.ts_report = false →
      rr ∉ riseWindow rstart rend rise) ∧
    (pickBestSub (riseWindow rstart rend rise) txnId (some bts) = (wts, wamt) →
      wts.isSome →
      ∃ rr,
        (rr ∈ riseWindow rstart rend rise ∧
          strContainsRegexD txnId rr.desc.toUpper = true) ∧
        wts = rr.ts_report ∧ wamt = rr.amount.map (|·|) ∧
        (∀ x ∈ (riseWindow rstart rend rise).filter
            (fun r => strContainsRegexD txnId r.desc.toUpper),
          absDelta bts rr ≤ absDelta bts x) ∧
        ∃ l1 l2,
          (riseWindow rstart rend rise).filter
            (fun r => strContainsRegexD txnId r.desc.toUpper) = l1 ++ rr :: l2 ∧
          ∀ x ∈ l1, absDelta bts rr < absDelta bts x) ∧
    (pickBestEmail (riseWindow rstart rend rise) key (some bts) = (wts, wamt) →
      wts.isSome →
      ∃ rr,
        (rr ∈ riseWindow rstart rend rise ∧ extract_email rr.desc = some key) ∧
        wts = rr.ts_report ∧ wamt = rr.amount.map (|·|) ∧
        (∀ x ∈ (riseWindow rstart rend rise).filter
            (fun r => extract_email r.desc == some key),
          absDelta bts rr ≤ absDelta bts x) ∧
        ∃ l1 l2,
          (riseWindow rstart rend rise).filter
            (fun r => extract_email r.desc == some key) = l1 ++ rr :: l2 ∧
          ∀ x ∈ l1, absDelta bts rr < absDelta bts x) := by
  refine ⟨?_, ?_, ?_, ?_⟩
  · intro rr hrr
    exact List.mem_filter.mp hrr
  · intro rr _ hout hmem
    rw [(List.mem_filter.mp hmem).2] at hout
    simp at hout
  · intro h hsome
    exact pickBestSub_spec h hsome
  · intro h hsome
    exact pickBestEmail_spec h hsome

/-- Witness for C7: over the window `[0, 180)` with Rise records tied at
distance `10` (timestamps `10` and `-10`), a farther record at `50` and an
out-of-margin record at `600`, both strategies choose the first-listed
tied record at timestamp `10`. -/
theorem C7_margin_window_and_nearest_timestamp_witness :
    (∃ rr,
      (rr ∈ riseWindow 0 180 [cexR7a, cexR7b, cexR7c, cexR7out] ∧
        strContainsRegexD "K" rr.desc.toUpper = true) ∧
      some 10 = rr.ts_report ∧ some 3 = rr.amount.map (|·|) ∧
      (∀ x ∈ (riseWindow 0 180 [cexR7a, cexR7b, cexR7c, cexR7out]).filter
          (fun r => strContainsRegexD "K" r.desc.toUpper),
        absDelta 0 rr ≤ absDelta 0 x) ∧
      ∃ l1 l2,
        (riseWindow 0 180 [cexR7a, cexR7b, cexR7c, cexR7out]).filter
          (fun r => strContainsRegexD "K" r.desc.toUpper) = l1 ++ rr :: l2 ∧
        ∀ x ∈ l1, absDelta 0 rr < absDelta 0 x) ∧
    (∃ rr,
      (rr ∈ riseWindow 0 180 [cexR7ea, cexR7eb] ∧
        extract_email rr.desc = some "a@b.co") ∧
      some 10 = rr.ts_report ∧ some 3 = rr.amount.map (|·|) ∧
      (∀ x ∈ (riseWindow 0 180 [cexR7ea, cexR7eb]).filter
          (fun r => extract_email r.desc == some "a@b.co"),
        absDelta 0 rr ≤ absDelta 0 x) ∧
      ∃ l1 l2,
        (riseWindow 0 180 [cexR7ea, cexR7eb]).filter
          (fun r => extract_email r.desc == some "a@b.co") = l1 ++ rr :: l2 ∧
        ∀ x ∈ l1, absDelta 0 rr < absDelta 0 x) := by
  constructor
  · exact (C7_margin_window_and_nearest_timestamp [cexR7a, cexR7b, cexR7c, cexR7out]
      0 180 "K" "a@b.co" 0 (some 10) (some 3)).2.2.1
      (by with_unfolding_all rfl) rfl
  · exact (C7_margin_window_and_nearest_timestamp [cexR7ea, cexR7eb]
      0 180 "K" "a@b.co" 0 (some 10) (some 3)).2.2.2
      (by with_unfolding_all rfl) rfl

/-! ## C8 helpers -/

theorem normLookup_some {cols : List String} {key c : String}
    (h : normLookup cols key = some c) : c ∈ cols ∧ norm_col c = key := by
  unfold normLookup at h
  have hmem := List.mem_of_mem_getLast? h
  rcases List.mem_filter.mp hmem with ⟨h1, h2⟩
  exact ⟨h1, by simpa using h2⟩

theorem normLookup_isSome {cols : List String} {key : String}
    (h : ∃ c ∈ cols, norm_col c = key) : ∃ c, normLookup cols key = some c := by
  rcases h with ⟨c, hc, hkey⟩
  unfold normLookup
  have hmem : c ∈ cols.filter (fun x => norm_col x == key) :=
    List.mem_filter.mpr ⟨hc, by simp [hkey]⟩
  have hne : cols.filter (fun x => norm_col x == key) ≠ [] := List.ne_nil_of_mem hmem
  rcases Option.isSome_iff_exists.mp (List.getLast?_isSome.mpr hne) with ⟨d, hd⟩
  exact ⟨d, hd⟩

theorem normLookup_none {cols : List String} {key : String}
    (h : ∀ c ∈ cols, norm_col c ≠ key) : normLookup cols key = none := by
  unfold normLookup
  have he : cols.filter (fun x => norm_col x == key) = [] :=
    List.filter_eq_nil_iff.mpr (by intro c hc; simpa using h c hc)
  rw [he]
  rfl

theorem findSome?_isSome_of_mem {α β : Type} {f : α → Option β} {l : List α} {a : α}
    (ha : a ∈ l) {b : β} (hb : f a = some b) : ∃ c, l.findSome? f = some c := by
  induction l with
  | nil => simp at ha
  | cons x xs ih =>
    rw [List.findSome?_cons]
    cases hx : f x with
    | some v => exact ⟨v, rfl⟩
    | none =>
      rcases List.mem_cons.mp ha with rfl | ha2
      · rw [hx] at hb; exact absurd hb (by simp)
      · exact ih ha2

theorem resolve_col_ok {cols fb : List String} {req c : String}
    (h : resolve_col cols req fb = .ok c) :
    c ∈ cols ∧ ∃ cand ∈ colCandidates req fb, norm_col cand = norm_col c := by
  cases hf : (colCandidates req fb).findSome? (fun cand => normLookup cols (norm_col cand)) with
  | none =>
    simp only [resolve_col, hf] at h
    exact Except.noConfusion h
  | some c2 =>
    simp only [resolve_col, hf] at h
    injection h with h2
    subst h2
    rcases List.exists_of_findSome?_eq_some hf with ⟨cand, hcand, hnl⟩
    rcases normLookup_some hnl with ⟨hmem, hnorm⟩
    exact ⟨hmem, cand, hcand, hnorm.symm⟩

theorem resolve_col_ok_exists {cols fb : List String} {req : String}
    (h : ∃ cand ∈ colCandidates req fb, ∃ c ∈ cols, norm_col cand = norm_col c) :
    ∃ c, resolve_col cols req fb = .ok c := by
  rcases h with ⟨cand, hcand, c, hc, he⟩
  rcases normLookup_isSome ⟨c, hc, he.symm⟩ with ⟨c2, hnl⟩
  rcases @findSome?_isSome_of_mem String String
    (fun cand => normLookup cols (norm_col cand)) (colCandidates req fb)
    cand hcand c2 hnl with ⟨c3, hf⟩
  refine ⟨c3, ?_⟩
  simp only [resolve_col, hf]

theorem resolve_col_error {cols fb : List String} {req : String}
    (h : ∀ cand ∈ colCandidates req fb, ∀ c ∈ cols, norm_col cand ≠ norm_col c) :
    resolve_col cols req fb = .error (colErrMsg (colCandidates req fb) cols) := by
  have hnone : (colCandidates req fb).findSome?
      (fun cand => normLookup cols (norm_col cand)) = none := by
    apply List.findSome?_eq_none_iff.mpr
    intro cand hcand
    apply normLookup_none
    intro c hc he
    exact h cand hcand c hc he.symm
  simp only [resolve_col, hnone]

theorem getColDirect_ok {cols : List String} {name : String} (h : name ∈ cols) :
    getColDirect cols name = .ok name := by
  unfold getColDirect
  rw [if_pos (List.elem_iff.mpr h)]

theorem getColDirect_error {cols : List String} {name : String} (h : name ∉ cols) :
    getColDirect cols name = .error (s!"KeyError: {name}") := by
  unfold getColDirect
  rw [if_neg (fun hc => h (List.elem_iff.mp hc))]

theorem getColDirect_ok_exists {cols : List String} {name : String} :
    (∃ c, getColDirect cols name = .ok c) ↔ name ∈ cols := by
  constructor
  · intro ⟨c, hc⟩
    unfold getColDirect at hc
    by_cases h : cols.contains name
    · exact List.elem_iff.mp h
    · rw [if_neg h] at hc; simp at hc
  · intro h
    exact ⟨name, getColDirect_ok h⟩

theorem except_bind_ok {α β : Type} (e : Except String α) (k : α → Except String β) (b : β) :
    (e >>= k) = .ok b ↔ ∃ a, e = .ok a ∧ k a = .ok b := by
  cases e <;> simp [Bind.bind, Except.bind]

/-! ## C8 -/

/-- C8 fails on the code: not every required column goes through the
synonym resolver.  In `reconcile_exact` the wallet timestamp column is
accessed directly by name (line 135): with the wallet frame exposing
`Date` but the configured name `date`, the run fails with a bare
`KeyError: date` naming neither the attempted candidates nor the
available columns — although `_resolve_col` on the same inputs finds
`Date`.  Likewise `reconcile_rise_email` accesses the backend email
column directly (line 271). -/
theorem C8_counterexample_direct_column_access :
    resolve_col ["Tracking ID", "Date", "Amount"] "date" [] = .ok "Date" ∧
    exactResolveCols ["ID", "Created", "Amount"] ["Tracking ID", "Date", "Amount"]
      "ID" "Created" "Amount" "Tracking ID" "date" "Amount" = .error "KeyError: date" ∧
    resolve_col ["Email", "Created", "Amount"] "email" [] = .ok "Email" ∧
    emailResolveCols ["Email", "Created", "Amount"] ["Description", "Date", "Amount"]
      "email" "Created" "Amount" "Description" "Date" "Amount" =
      .error "KeyError: email" := by
  refine ⟨?_, ?_, ?_, ?_⟩ <;> with_unfolding_all rfl

/-- C8 amended: the columns routed through `_resolve_col` (backend id,
backend timestamp, backend amount, wallet id in the exact strategy; Rise
timestamp and Rise amount in the substring and email strategies) are
resolved case- and whitespace-insensitively against the requested name
plus a fixed synonym list, failing with a descriptive message naming the
tried candidates and the available columns; the remaining required
columns — wallet timestamp and wallet amount (exact), Rise description
(substring and email), backend email (email) — are accessed directly by
exact name and a miss raises a bare `KeyError` naming only that column. -/
theorem C8_amended_partial_synonym_resolution
    (bcols wcols rcols : List String)
    (bid bts bamt wid wts wamt bemail rdesc rts ramt : String) :
    (∀ (cols fb : List String) (req c : String),
      resolve_col cols req fb = .ok c →
        c ∈ cols ∧ ∃ cand ∈ colCandidates req fb, norm_col cand = norm_col c) ∧
    (∀ (cols fb : List String) (req : String),
      (∃ cand ∈ colCandidates req fb, ∃ c ∈ cols, norm_col cand = norm_col c) →
        ∃ c, resolve_col cols req fb = .ok c) ∧
    (∀ (cols fb : List String) (req : String),
      (∀ cand ∈ colCandidates req fb, ∀ c ∈ cols, norm_col cand ≠ norm_col c) →
        resolve_col cols req fb = .error (colErrMsg (colCandidates req fb) cols)) ∧
    (∀ (cols : List String) (name : String),
      (name ∈ cols → getColDirect cols name = .ok name) ∧
      (name ∉ cols → getColDirect cols name = .error (s!"KeyError: {name}"))) ∧
    (exactResolveCols bcols wcols bid bts bamt wid wts wamt = .ok () ↔
      (∃ c, resolve_col bcols bid backendIdFallbacks = .ok c) ∧
      (∃ c, resolve_col wcols wid walletIdFallbacks = .ok c) ∧
      (∃ c, resolve_col bcols bts backendTsFallbacks = .ok c) ∧
      (∃ c, getColDirect wcols wts = .ok c) ∧
      (∃ c, resolve_col bcols bamt backendAmountFallbacks = .ok c) ∧
      (∃ c, getColDirect wcols wamt = .ok c)) ∧
    (subResolveCols bcols rcols bid bts bamt rdesc rts ramt = .ok () ↔
      (∃ c, resolve_col bcols bid backendIdFallbacks = .ok c) ∧
      (∃ c, getColDirect rcols rdesc = .ok c) ∧
      (∃ c, resolve_col bcols bts backendTsFallbacks = .ok c) ∧
      (∃ c, resolve_col rcols rts riseTsFallbacks = .ok c) ∧
      (∃ c, resolve_col bcols bamt backendAmountFallbacks = .ok c) ∧
      (∃ c, resolve_col rcols ramt riseAmountFallbacks = .ok c)) ∧
    (emailResolveCols bcols rcols bemail bts bamt rdesc rts ramt = .ok () ↔
      (∃ c, getColDirect bcols bemail = .ok c) ∧
      (∃ c, getColDirect rcols rdesc = .ok c) ∧
      (∃ c, resolve_col bcols bts backendTsFallbacks = .ok c) ∧
      (∃ c, resolve_col rcols rts riseTsFallbacks = .ok c) ∧
      (∃ c, resolve_col bcols bamt backendAmountFallbacks = .ok c) ∧
      (∃ c, resolve_col rcols ramt riseAmountFallbacks = .ok c)) := by
  refine ⟨?_, ?_, ?_, ?_, ?_, ?_, ?_⟩
  · intro cols fb req c h
    exact resolve_col_ok h
  · intro cols fb req h
    exact resolve_col_ok_exists h
  · intro cols fb req h
    exact resolve_col_error h
  · intro cols name
    exact ⟨fun h => getColDirect_ok h, fun h => getColDirect_error h⟩
  · simp only [exactResolveCols, except_bind_ok, exists_and_right]
    simp [Pure.pure, Except.pure, and_assoc]
  · simp only [subResolveCols, except_bind_ok, exists_and_right]
    simp [Pure.pure, Except.pure, and_assoc]
  · simp only [emailResolveCols, except_bind_ok, exists_and_right]
    simp [Pure.pure, Except.pure, and_assoc]

/-- Witness for the amended C8: the exact strategy's column phase succeeds
when the resolver finds the four synonym-resolved columns (including the
differently-spelled `Created at` for `Created`) and the two directly
accessed wallet columns are present verbatim. -/
theorem C8_amended_partial_synonym_resolution_witness :
    exactResolveCols ["ID", "Created at", "Amount"] ["Tracking ID", "Date", "Amount"]
      "ID" "Created" "Amount" "Tracking ID" "Date" "Amount" = .ok () := by
  apply (C8_amended_partial_synonym_resolution ["ID", "Created at", "Amount"]
    ["Tracking ID", "Date", "Amount"] [] "ID" "Created" "Amount" "Tracking ID"
    "Date" "Amount" "" "" "" "").2.2.2.2.1.mpr
  refine ⟨⟨"ID", ?_⟩, ⟨"Tracking ID", ?_⟩, ⟨"Created at", ?_⟩, ⟨"Date", ?_⟩,
    ⟨"Amount", ?_⟩, ⟨"Amount", ?_⟩⟩ <;> with_unfolding_all rfl

/-! ## C9 helpers -/

theorem allMissing_shape (merged : List OutRow) (rstart rend tol : ℚ)
    (h : ∀ r ∈ merged, r.ts_report_wallet = none) :
    (classifyAndSummarize merged rstart rend tol).matched = [] ∧
    (classifyAndSummarize merged rstart rend tol).late_sync = [] ∧
    (classifyAndSummarize merged rstart rend tol).missing_true.length = merged.length ∧
    ∀ s ∈ (classifyAndSummarize merged rstart rend tol).summary_3h,
      s.matched_count = 0 ∧ s.late_sync_count = 0 ∧ s.backend_total = 0 ∧
      s.wallet_total = 0 ∧ s.diff_total = 0 ∧ s.abs_diff_total = 0 := by
  have hm : matchedFilter tol merged = [] := by
    apply List.filter_eq_nil_iff.mpr
    intro r hr
    simp [h r hr]
  have hl : lateFilter tol merged = [] := by
    apply List.filter_eq_nil_iff.mpr
    intro r hr
    simp [h r hr]
  have hmi : missingFilter merged = merged := by
    apply List.filter_eq_self.mpr
    intro r hr
    simp [h r hr]
  refine ⟨?_, ?_, ?_, ?_⟩
  · simp [classifyAndSummarize, hm]
  · simp [classifyAndSummarize, hl]
  · simp [classifyAndSummarize, hmi]
  · intro s hs
    simp only [classifyAndSummarize, hm, hl] at hs
    rcases List.mem_map.mp hs with ⟨beta, _, rfl⟩
    simp [optSum]

/-! ## C9 -/

/-- C9 fails on the code: with a non-empty backend set and an empty
counterparty set, `missing_true` holds the windowed backend records
rather than being empty; and under the substring strategy an empty
counterparty set does not prevent an exception — the backend identifier
is still compiled as a regex, so an identifier with an unbalanced `(`
aborts the run. -/
theorem C9_counterexample_empty_counterparty :
    (reconExactRows [cexB9] [] 0 180 15).missing_true.length = 1 ∧
    (reconExactRows [cexB9] [] 0 180 15).matched = [] ∧
    reconSubRows [cexB9bad] [] 0 180 15 =
      .error "re.error: unbalanced or unsupported metacharacter" := by
  refine ⟨?_, ?_, ?_⟩ <;> with_unfolding_all rfl

/-- C9 amended: with an empty backend set every strategy completes
without exception and returns empty tables plus the full zero-filled
window sequence.  With only the counterparty set empty, the exact and
email strategies complete without exception with empty `matched` and
`late_sync`, `missing_true` holding exactly the windowed backend records,
and a summary whose matched/late counts and sums are all zero; the
substring strategy completes likewise provided every windowed backend
identifier compiles as a regex (otherwise it raises). -/
theorem C9_amended_empty_inputs (backend : List BackendRow) (wallet : List WalletRow)
    (rise : List RiseRow) (rstart rend tol : ℚ) :
    (reconExactRows [] wallet rstart rend tol =
      ⟨[], [], [], (bucketStarts rstart rend).map zeroSummaryRow⟩) ∧
    (reconSubRows [] rise rstart rend tol =
      .ok ⟨[], [], [], (bucketStarts rstart rend).map zeroSummaryRow⟩) ∧
    (reconEmailRows [] rise rstart rend tol =
      ⟨[], [], [], (bucketStarts rstart rend).map zeroSummaryRow⟩) ∧
    ((reconExactRows backend [] rstart rend tol).matched = [] ∧
     (reconExactRows backend [] rstart rend tol).late_sync = [] ∧
     (reconExactRows backend [] rstart rend tol).missing_true.length
        = (backendWindow rstart rend backend).length ∧
     ∀ s ∈ (reconExactRows backend [] rstart rend tol).summary_3h,
       s.matched_count = 0 ∧ s.late_sync_count = 0 ∧ s.backend_total = 0 ∧
       s.wallet_total = 0 ∧ s.diff_total = 0 ∧ s.abs_diff_total = 0) ∧
    ((reconEmailRows backend [] rstart rend tol).matched = [] ∧
     (reconEmailRows backend [] rstart rend tol).late_sync = [] ∧
     (reconEmailRows backend [] rstart rend tol).missing_true.length
        = (backendWindow rstart rend backend).length ∧
     ∀ s ∈ (reconEmailRows backend [] rstart rend tol).summary_3h,
       s.matched_count = 0 ∧ s.late_sync_count = 0 ∧ s.backend_total = 0 ∧
       s.wallet_total = 0 ∧ s.diff_total = 0 ∧ s.abs_diff_total = 0) ∧
    (∀ res : ReconResult, reconSubRows backend [] rstart rend tol = .ok res →
      res.matched = [] ∧ res.late_sync = [] ∧
      res.missing_true.length = (backendWindow rstart rend backend).length ∧
      ∀ s ∈ res.summary_3h,
        s.matched_count = 0 ∧ s.late_sync_count = 0 ∧ s.backend_total = 0 ∧
        s.wallet_total = 0 ∧ s.diff_total = 0 ∧ s.abs_diff_total = 0) := by
  refine ⟨rfl, rfl, rfl, ?_, ?_, ?_⟩
  · have hnone : ∀ r ∈ (backendWindow rstart rend backend).flatMap (exactMergeOne []),
        r.ts_report_wallet = none := by
      intro r hr
      rcases List.mem_flatMap.mp hr with ⟨b, _, hrb⟩
      have hrr : r = mkOut (clean_id b.rid) b none none := by
        simpa [exactMergeOne, exactMatchesFor] using hrb
      rw [hrr]
      rfl
    have hshape := allMissing_shape
      ((backendWindow rstart rend backend).flatMap (exactMergeOne []))
      rstart rend tol hnone
    have hlen : ((backendWindow rstart rend backend).flatMap (exactMergeOne [])).length
        = (backendWindow rstart rend backend).length := by
      rw [List.length_flatMap]
      calc ((backendWindow rstart rend backend).map
              (fun b => (exactMergeOne [] b).length)).sum
          = ((backendWindow rstart rend backend).map (fun _ => 1)).sum := by congr 1
        _ = (backendWindow rstart rend backend).length := by simp
    refine ⟨hshape.1, hshape.2.1, ?_, hshape.2.2.2⟩
    show (classifyAndSummarize ((backendWindow rstart rend backend).flatMap
      (exactMergeOne [])) rstart rend tol).missing_true.length
        = (backendWindow rstart rend backend).length
    rw [hshape.2.2.1]
    exact hlen
  · have hnone : ∀ r ∈ (backendWindow rstart rend backend).map
        (emailMergeOne (riseWindow rstart rend [])), r.ts_report_wallet = none := by
      intro r hr
      rcases List.mem_map.mp hr with ⟨b, _, hrb⟩
      rw [← hrb]
      rfl
    have hshape := allMissing_shape
      ((backendWindow rstart rend backend).map (emailMergeOne (riseWindow rstart rend [])))
      rstart rend tol hnone
    refine ⟨hshape.1, hshape.2.1, ?_, hshape.2.2.2⟩
    show (classifyAndSummarize ((backendWindow rstart rend backend).map
      (emailMergeOne (riseWindow rstart rend []))) rstart rend tol).missing_true.length
        = (backendWindow rstart rend backend).length
    rw [hshape.2.2.1]
    exact List.length_map _ _
  · intro res hres
    rw [reconSubRows_ok hres]
    have hnone : ∀ r ∈ (backendWindow rstart rend backend).map
        (subMergeOne (riseWindow rstart rend [])), r.ts_report_wallet = none := by
      intro r hr
      rcases List.mem_map.mp hr with ⟨b, _, hrb⟩
      rw [← hrb]
      rfl
    have hshape := allMissing_shape
      ((backendWindow rstart rend backend).map (subMergeOne (riseWindow rstart rend [])))
      rstart rend tol hnone
    refine ⟨hshape.1, hshape.2.1, ?_, hshape.2.2.2⟩
    rw [hshape.2.2.1]
    exact List.length_map _ _

/-- Witness for the amended C9 at concrete inputs: empty backend gives
the zero-filled two-window summary over `[0, 360)`; empty wallet leaves
the one windowed backend record in `missing_true`; the substring run
with empty counterparty and a well-formed identifier returns
successfully with empty matched rows. -/
theorem C9_amended_empty_inputs_witness :
    (reconExactRows [] [cexW1] 0 360 15 =
      ⟨[], [], [], (bucketStarts 0 360).map zeroSummaryRow⟩) ∧
    ((reconExactRows [cexB9] [] 0 180 15).missing_true.length
      = (backendWindow 0 180 [cexB9]).length) ∧
    (classifyAndSummarize ((backendWindow 0 180 [cexB9]).map
      (subMergeOne (riseWindow 0 180 []))) 0 180 15).matched = [] := by
  have h := C9_amended_empty_inputs [cexB9] [] [] 0 180 15
  refine ⟨(C9_amended_empty_inputs [] [cexW1] [] 0 360 15).1, h.2.2.2.1.2.2.1, ?_⟩
  exact (h.2.2.2.2.2 (classifyAndSummarize ((backendWindow 0 180 [cexB9]).map
    (subMergeOne (riseWindow 0 180 []))) 0 180 15) (by with_unfolding_all rfl)).1

/-! ## C10 helpers -/

theorem argminFirst_mem {f : RiseRow → ℚ} {l : List RiseRow} {r : RiseRow}
    (h : argminFirst f l = some r) : r ∈ l := by
  rcases argminFirst_spec f l r h with ⟨l1, l2, hsplit, _, _⟩
  rw [hsplit]
  exact List.mem_append_right _ (List.mem_cons_self _ _)

theorem allRows_mem {merged : List OutRow} {rstart rend tol : ℚ} {r : OutRow}
    (hr : r ∈ allRows (classifyAndSummarize merged rstart rend tol)) :
    ∃ r0 ∈ merged, r = setBucket r0 := by
  simp only [allRows, List.mem_append] at hr
  rcases hr with (hr | hr) | hr
  · rcases mem_classify_matched.mp hr with ⟨r0, ⟨h0, _⟩, hrr⟩
    exact ⟨r0, h0, hrr.symm⟩
  · rcases mem_classify_late.mp hr with ⟨r0, ⟨h0, _⟩, hrr⟩
    exact ⟨r0, h0, hrr.symm⟩
  · rcases mem_classify_missing.mp hr with ⟨r0, ⟨h0, _⟩, hrr⟩
    exact ⟨r0, h0, hrr.symm⟩

theorem pickBestSub_amount (rwin : List RiseRow) (txnId : String) (bts : Option ℚ) :
    (pickBestSub rwin txnId bts).2 = none ∨
    ∃ rr ∈ rwin, (pickBestSub rwin txnId bts).2 = rr.amount.map (|·|) := by
  unfold pickBestSub
  cases hm : rwin.filter (fun r => strContainsRegexD txnId r.desc.toUpper) with
  | nil => left; rfl
  | cons c cs =>
    cases bts with
    | none => left; rfl
    | some t =>
      cases hmin : argminFirst (absDelta t) (c :: cs) with
      | none => left; simp [hmin]
      | some rr =>
        right
        have hmem : rr ∈ rwin := (List.mem_filter.mp (hm ▸ argminFirst_mem hmin)).1
        exact ⟨rr, hmem, by simp [hmin]⟩

theorem pickBestEmail_amount (rwin : List RiseRow) (key : String) (bts : Option ℚ) :
    (pickBestEmail rwin key bts).2 = none ∨
    ∃ rr ∈ rwin, (pickBestEmail rwin key bts).2 = rr.amount.map (|·|) := by
  unfold pickBestEmail
  cases hm : rwin.filter (fun r => extract_email r.desc == some key) with
  | nil => left; rfl
  | cons c cs =>
    cases bts with
    | none => left; rfl
    | some t =>
      cases hmin : argminFirst (absDelta t) (c :: cs) with
      | none => left; simp [hmin]
      | some rr =>
        right
        have hmem : rr ∈ rwin := (List.mem_filter.mp (hm ▸ argminFirst_mem hmin)).1
        exact ⟨rr, hmem, by simp [hmin]⟩

/-! ## C10 -/

/-- C10: in all three strategies the counterparty amount is normalized to
its absolute value before any comparison: in every output row the wallet
amount is missing or non-negative and equals the absolute value of some
counterparty record's raw amount, and the amount difference is the
backend amount minus that absolute value (missing when either side is). -/
theorem C10_wallet_amount_absolute (backend : List BackendRow) (wallet : List WalletRow)
    (rise : List RiseRow) (rstart rend tol : ℚ) :
    (∀ r ∈ allRows (reconExactRows backend wallet rstart rend tol),
      r.amount_diff = osub r.amount_backend r.amount_wallet ∧
      (∀ q, r.amount_wallet = some q → 0 ≤ q) ∧
      (r.amount_wallet = none ∨
        ∃ w ∈ wallet, r.amount_wallet = w.amount.map (|·|))) ∧
    (∀ res : ReconResult, reconSubRows backend rise rstart rend tol = .ok res →
      ∀ r ∈ allRows res,
        r.amount_diff = osub r.amount_backend r.amount_wallet ∧
        (∀ q, r.amount_wallet = some q → 0 ≤ q) ∧
        (r.amount_wallet = none ∨
          ∃ rr ∈ rise, r.amount_wallet = rr.amount.map (|·|))) ∧
    (∀ r ∈ allRows (reconEmailRows backend rise rstart rend tol),
      r.amount_diff = osub r.amount_backend r.amount_wallet ∧
      (∀ q, r.amount_wallet = some q → 0 ≤ q) ∧
      (r.amount_wallet = none ∨
        ∃ rr ∈ rise, r.amount_wallet = rr.amount.map (|·|))) := by
  have habs : ∀ (src : Option ℚ) (q : ℚ), src.map (|·|) = some q → 0 ≤ q := by
    intro src q h
    cases src with
    | none => simp at h
    | some x =>
      simp only [Option.map_some'] at h
      injection h with h2
      rw [← h2]
      exact abs_nonneg x
  refine ⟨?_, ?_, ?_⟩
  · intro r hr
    rcases allRows_mem hr with ⟨r0, h0, rfl⟩
    rcases List.mem_flatMap.mp h0 with ⟨b, _, hrb⟩
    rcases exactMergeOne_mem hrb with ⟨_, rfl⟩ | ⟨w, hw, rfl⟩
    · exact ⟨rfl, by intro q hq; simp [setBucket, mkOut] at hq, Or.inl rfl⟩
    · refine ⟨rfl, ?_, Or.inr ⟨w, (List.mem_filter.mp hw).1, rfl⟩⟩
      intro q hq
      exact habs w.amount q hq
  · intro res hres r hr
    rw [reconSubRows_ok hres] at hr
    rcases allRows_mem hr with ⟨r0, h0, rfl⟩
    rcases List.mem_map.mp h0 with ⟨b, _, hrb⟩
    subst hrb
    refine ⟨rfl, ?_, ?_⟩
    · intro q hq
      rcases pickBestSub_amount (riseWindow rstart rend rise) (clean_id b.rid) b.ts_report
        with hnone | ⟨rr, _, heq⟩
      · rw [show (setBucket (subMergeOne (riseWindow rstart rend rise) b)).amount_wallet
            = (pickBestSub (riseWindow rstart rend rise) (clean_id b.rid) b.ts_report).2
            from rfl, hnone] at hq
        simp at hq
      · rw [show (setBucket (subMergeOne (riseWindow rstart rend rise) b)).amount_wallet
            = (pickBestSub (riseWindow rstart rend rise) (clean_id b.rid) b.ts_report).2
            from rfl, heq] at hq
        exact habs rr.amount q hq
    · rcases pickBestSub_amount (riseWindow rstart rend rise) (clean_id b.rid) b.ts_report
        with hnone | ⟨rr, hrr, heq⟩
      · exact Or.inl hnone
      · exact Or.inr ⟨rr, (List.mem_filter.mp hrr).1, heq⟩
  · intro r hr
    rcases allRows_mem hr with ⟨r0, h0, rfl⟩
    rcases List.mem_map.mp h0 with ⟨b, _, hrb⟩
    subst hrb
    refine ⟨rfl, ?_, ?_⟩
    · intro q hq
      rcases pickBestEmail_amount (riseWindow rstart rend rise) (emailKey b) b.ts_report
        with hnone | ⟨rr, _, heq⟩
      · rw [show (setBucket (emailMergeOne (riseWindow rstart rend rise) b)).amount_wallet
            = (pickBestEmail (riseWindow rstart rend rise) (emailKey b) b.ts_report).2
            from rfl, hnone] at hq
        simp at hq
      · rw [show (setBucket (emailMergeOne (riseWindow rstart rend rise) b)).amount_wallet
            = (pickBestEmail (riseWindow rstart rend rise) (emailKey b) b.ts_report).2
            from rfl, heq] at hq
        exact habs rr.amount q hq
    · rcases pickBestEmail_amount (riseWindow rstart rend rise) (emailKey b) b.ts_report
        with hnone | ⟨rr, hrr, heq⟩
      · exact Or.inl hnone
      · exact Or.inr ⟨rr, (List.mem_filter.mp hrr).1, heq⟩

/-- Witness for C10: a counterparty report listing the disbursement as
`-100` against a backend amount `100` yields wallet amount `100`,
non-negative, and amount difference `0`. -/
theorem C10_wallet_amount_absolute_witness :
    cexRow10 ∈ allRows (reconExactRows [cexB10] [cexW10] 0 180 15) ∧
    cexRow10.amount_diff = osub cexRow10.amount_backend cexRow10.amount_wallet ∧
    (∀ q, cexRow10.amount_wallet = some q → 0 ≤ q) ∧
    (cexRow10.amount_wallet = none ∨
      ∃ w ∈ [cexW10], cexRow10.amount_wallet = w.amount.map (|·|)) := by
  have hmem : cexRow10 ∈ allRows (reconExactRows [cexB10] [cexW10] 0 180 15) := by
    with_unfolding_all decide
  have h := (C10_wallet_amount_absolute [cexB10] [cexW10] [] 0 180 15).1 cexRow10 hmem
  exact ⟨hmem, h.1, h.2.1, h.2.2⟩

end Recon
